import Mathlib

/-!
# SatShor — verification of the coverage-optimization core

Shallow embedding of the selection / coverage-optimization code of the
SatShor repository (`src/image_collector/coverage_optimizer.py`,
`src/image_collector/collection_core.py`, `src/image_collector/config_schema.py`)
together with proofs about the spec's claims.

Modelling conventions:
* Python floats are modelled as exact rationals (`ℚ`); the tolerances the spec
  allows for floating rounding are subsumed by exact equalities.
* `shapely` geometries are external library objects; a geometry is modelled by
  the exact interface this code uses: its bounding box (`bounds`) and its
  prepared closed point-containment test (`covers`).  `prep(g).covers` is a
  performance wrapper around `g.covers` and is modelled by the same function.
* The OR-Tools MILP solve is an external call; it is modelled by an abstract
  outcome (a termination status plus a 0/1 assignment of the `x_j` variables).
  The constraint/objective construction (which only feeds the external solver)
  is not re-modelled; the status handling and solution extraction, which is
  the repository's own logic, is translated faithfully.
* Python `set` of point indices is `Finset ℕ`, Python lists are `List`.
-/

namespace SatShor

/-- Python `int(q)` for a rational: truncation toward zero
(`int(total_points * min_coverage_fraction)` in `greedy_set_cover`). -/
def pyTrunc (q : ℚ) : ℤ := q.num.tdiv (q.den : ℤ)

/-- Stable descending insertion by a rational key: the element is placed in
front of the first entry whose key is ≤ its own, so earlier elements keep
their place among equal keys.  This is the semantics of Python's stable
`sorted(..., key=..., reverse=True)`. -/
def insertKeyDesc (key : α → ℚ) (x : α) : List α → List α
  | [] => [x]
  | y :: ys => if key y ≤ key x then x :: y :: ys else y :: insertKeyDesc key x ys

/-- Stable descending sort by a rational key (Python
`sorted(l, key=key, reverse=True)`). -/
def sortByDesc (key : α → ℚ) : List α → List α
  | [] => []
  | x :: xs => insertKeyDesc key x (sortByDesc key xs)

/-- Python `max(l, key=f)` over `x :: ys`: keeps the first maximal element. -/
def pyMaxBy (f : α → ℚ) (x : α) : List α → α
  | [] => x
  | y :: ys => if f x < f y then pyMaxBy f y ys else pyMaxBy f x ys

/-! ## Geometry interface (shapely façade)

A projected geometry, as consumed by `coverage_optimizer.py`: a bounding box
`(minx, miny, maxx, maxy)` (shapely `.bounds`) and a closed containment test
for points (shapely `covers`, through `shapely.prepared.prep`). -/

structure Polygon where
  minx : ℚ
  miny : ℚ
  maxx : ℚ
  maxy : ℚ
  covers : ℚ × ℚ → Bool

instance : Inhabited Polygon := ⟨⟨0, 0, 0, 0, fun _ => false⟩⟩

/-- `numpy.arange(start, stop, step)`: the values `start + k·step` for
`k = 0, 1, …, ⌈(stop − start)/step⌉ − 1` (empty when the count is ≤ 0).
All produced values are `< stop` when `step > 0`. -/
def npArange (start stop step : ℚ) : List ℚ :=
  (List.range (⌈(stop - start) / step⌉).toNat).map (fun k : ℕ => start + (k : ℚ) * step)

/-- `sample_points_in_polygon` (coverage_optimizer.py lines 58–94): grid of
points at the given spacing over the AOI bounding box, retained iff the
(prepared) AOI polygon covers them.  The x coordinate is the outer loop. -/
def sample_points_in_polygon (aoi_polygon : Polygon) (grid_spacing_meters : ℚ) :
    List (ℚ × ℚ) :=
  let x_coords := npArange aoi_polygon.minx aoi_polygon.maxx grid_spacing_meters
  let y_coords := npArange aoi_polygon.miny aoi_polygon.maxy grid_spacing_meters
  (x_coords.map (fun x =>
    y_coords.filterMap (fun y =>
      if aoi_polygon.covers (x, y) then some (x, y) else none))).flatten

/-- `build_coverage_matrix` (coverage_optimizer.py lines 97–137): for each
candidate footprint, the set of sample-point indices that pass the
bounding-box pre-filter and the exact `covers` test. -/
def build_coverage_matrix (sample_points : List (ℚ × ℚ))
    (candidate_footprints : List Polygon) : List (Finset ℕ) :=
  candidate_footprints.map (fun footprint =>
    (Finset.range sample_points.length).filter (fun i =>
      let p := sample_points.getD i (0, 0)
      footprint.minx ≤ p.1 ∧ p.1 ≤ footprint.maxx ∧
      footprint.miny ≤ p.2 ∧ p.2 ≤ footprint.maxy ∧
      footprint.covers p = true))

/-! ## Data model (coverage_optimizer.py dataclasses) -/

/-- `CoverageCandidate` (coverage_optimizer.py lines 34–42).  `covered_points`
is populated after the matrix build and is not read by the solvers. -/
structure CoverageCandidate where
  index : ℕ
  footprint : Polygon
  cloud_cover : ℚ
  date : String
  quality_score : ℚ
  covered_points : Finset ℕ

instance : Inhabited CoverageCandidate := ⟨⟨0, default, 0, "", 0, ∅⟩⟩

/-- `CoverageResult` (coverage_optimizer.py lines 45–55).
`solver_time_seconds` is wall-clock time and is not modelled. -/
structure CoverageResult where
  selected_indices : List ℕ
  coverage_fraction : ℚ
  uncovered_area_m2 : ℚ
  num_candidates : ℕ
  num_selected : ℕ
  solver_type : String
  optimal : Option Bool
deriving DecidableEq

/-! ## Greedy solver (coverage_optimizer.py lines 140–240) -/

/-- Cost of a candidate (lines 195–198):
`max(cloud_weight·(cloud/100) + quality_weight·(1 − quality), 0.01)`. -/
def candCost (cloud_weight quality_weight : ℚ) (c : CoverageCandidate) : ℚ :=
  max (cloud_weight * (c.cloud_cover / 100) + quality_weight * (1 - c.quality_score)) (1 / 100)

/-- One step of the inner `for j, candidate in enumerate(candidates)` scan of
a greedy iteration (lines 184–206): update the accumulator
`(best_candidate_idx, best_gain_per_cost)` with candidate position `j`.
Already-selected candidates and candidates with zero marginal gain are
skipped; a candidate wins only on a strictly better gain-per-cost ratio. -/
def scanStep (candidates : List CoverageCandidate) (coverage_sets : List (Finset ℕ))
    (selected : List ℕ) (uncovered : Finset ℕ) (cloud_weight quality_weight : ℚ)
    (acc : Option ℕ × ℚ) (j : ℕ) : Option ℕ × ℚ :=
  -- `marginal_gain` is `((coverage_sets.getD j ∅) ∩ uncovered).card`,
  -- `gain_per_cost` is `marginal_gain / cost` with the clamped cost of line 198
  if j ∈ selected then acc
  else if ((coverage_sets.getD j ∅) ∩ uncovered).card = 0 then acc
  else if acc.2 < ((((coverage_sets.getD j ∅) ∩ uncovered).card : ℚ) /
      candCost cloud_weight quality_weight (candidates.getD j default)) then
    (some j, (((coverage_sets.getD j ∅) ∩ uncovered).card : ℚ) /
      candCost cloud_weight quality_weight (candidates.getD j default))
  else acc

/-- The inner scan of one greedy iteration over the list `l` of candidate
positions, threading the accumulator through `scanStep`. -/
def bestScan (candidates : List CoverageCandidate) (coverage_sets : List (Finset ℕ))
    (selected : List ℕ) (uncovered : Finset ℕ) (cloud_weight quality_weight : ℚ) :
    List ℕ → Option ℕ × ℚ → Option ℕ × ℚ
  | [], acc => acc
  | j :: js, acc =>
    bestScan candidates coverage_sets selected uncovered cloud_weight quality_weight js
      (scanStep candidates coverage_sets selected uncovered cloud_weight quality_weight acc j)

/-- One greedy iteration's argmax over all candidate positions
(`best_candidate_idx` of lines 179–206; `none` means no candidate has
positive marginal gain). -/
def findBest (candidates : List CoverageCandidate) (coverage_sets : List (Finset ℕ))
    (selected : List ℕ) (uncovered : Finset ℕ) (cloud_weight quality_weight : ℚ) : Option ℕ :=
  (bestScan candidates coverage_sets selected uncovered cloud_weight quality_weight
    (List.range candidates.length) (none, 0)).1

/-- The greedy `while` loop (lines 177–220).  `fuel` bounds the recursion; the
loop is called with `fuel = total_points`, which is sufficient because every
selecting iteration removes at least one point from `uncovered` (so at most
`total_points` iterations can select), and once `uncovered` is empty every
marginal gain is 0, so `findBest` returns `none` and the Python loop breaks
with the same state.  Hence with this fuel the function equals the unbounded
Python loop on all inputs. -/
def greedyGo (candidates : List CoverageCandidate) (coverage_sets : List (Finset ℕ))
    (cloud_weight quality_weight : ℚ) (total_points : ℕ) (target_points : ℤ) :
    ℕ → List ℕ → Finset ℕ → List ℕ × Finset ℕ
  | 0, selected, uncovered => (selected, uncovered)
  | fuel + 1, selected, uncovered =>
    if (total_points : ℤ) - target_points < (uncovered.card : ℤ) then
      match findBest candidates coverage_sets selected uncovered cloud_weight quality_weight with
      | none => (selected, uncovered)
      | some j =>
        greedyGo candidates coverage_sets cloud_weight quality_weight total_points target_points
          fuel (selected ++ [j]) (uncovered \ coverage_sets.getD j ∅)
    else (selected, uncovered)

/-- `greedy_set_cover` (coverage_optimizer.py lines 140–240). -/
def greedy_set_cover (candidates : List CoverageCandidate)
    (coverage_sets : List (Finset ℕ)) (sample_points : List (ℚ × ℚ))
    (aoi_area_m2 min_coverage_fraction cloud_weight quality_weight : ℚ) : CoverageResult :=
  let total_points := sample_points.length
  let target_points := pyTrunc ((total_points : ℚ) * min_coverage_fraction)
  let res := greedyGo candidates coverage_sets cloud_weight quality_weight total_points
    target_points total_points [] (Finset.range total_points)
  let coverage_fraction : ℚ := 1 - (res.2.card : ℚ) / (total_points : ℚ)
  ⟨res.1.map (fun i => (candidates.getD i default).index),
   coverage_fraction,
   ((res.2.card : ℚ) / (total_points : ℚ)) * aoi_area_m2,
   candidates.length,
   res.1.length,
   "greedy",
   some false⟩

/-- Union of the coverage sets at the given candidate positions
(the set of points covered by a selection). -/
def listUnion (coverage_sets : List (Finset ℕ)) : List ℕ → Finset ℕ
  | [] => ∅
  | j :: js => coverage_sets.getD j ∅ ∪ listUnion coverage_sets js

/-- The universe: union of all candidates' coverage sets. -/
def unionAll : List (Finset ℕ) → Finset ℕ
  | [] => ∅
  | s :: ss => s ∪ unionAll ss

/-! ## MILP solver driver (coverage_optimizer.py lines 243–377)

The solve itself (`solver.Solve()`) is an external OR-Tools call; it is
modelled by an abstract `MilpOutcome`: the returned status and the rounded
0/1 solution values of the selection variables (`x[j].solution_value() > 0.5`).
The repository's own logic around the solve — status handling (lines 342–350)
and solution extraction / statistics (lines 352–377) — is translated. -/

/-- `pywraplp` result statuses distinguished by the code. -/
inductive MilpStatus where
  | OPTIMAL | FEASIBLE | INFEASIBLE | UNBOUNDED | ABNORMAL | NOT_SOLVED
deriving DecidableEq

/-- Abstract outcome of the external MILP solve. -/
structure MilpOutcome where
  status : MilpStatus
  solution : ℕ → Bool

/-- `optimal_set_cover_milp` (coverage_optimizer.py lines 243–377).
`ortools_available` models the module-level `ORTOOLS_AVAILABLE` flag (line 271);
the CBC back-end creation is assumed to succeed.  Returns `none` exactly when
OR-Tools is missing or the status is neither `OPTIMAL` nor `FEASIBLE`. -/
def optimal_set_cover_milp (ortools_available : Bool) (outcome : MilpOutcome)
    (candidates : List CoverageCandidate) (coverage_sets : List (Finset ℕ))
    (sample_points : List (ℚ × ℚ))
    (aoi_area_m2 min_coverage_fraction cloud_weight quality_weight : ℚ)
    (time_limit_seconds : ℕ) : Option CoverageResult :=
  if ortools_available = false then none
  else
    let total_points := sample_points.length
    match outcome.status with
    | .OPTIMAL | .FEASIBLE =>
      let optimal := outcome.status = MilpStatus.OPTIMAL
      let selectedPos := (List.range candidates.length).filter (fun j => outcome.solution j)
      let selected_indices := selectedPos.map (fun j => (candidates.getD j default).index)
      let covered_points_set := selectedPos.foldl (fun s j => s ∪ coverage_sets.getD j ∅) ∅
      let coverage_fraction : ℚ := (covered_points_set.card : ℚ) / (total_points : ℚ)
      some ⟨selected_indices,
            coverage_fraction,
            (1 - coverage_fraction) * aoi_area_m2,
            candidates.length,
            selected_indices.length,
            "milp",
            some (decide optimal)⟩
    | .INFEASIBLE | .UNBOUNDED | .ABNORMAL | .NOT_SOLVED => none

/-! ## Dispatcher `select_covering_products` (coverage_optimizer.py lines 380–537) -/

/-- A processed product dictionary, with the keys this code reads.
`footprint_geom_proj = none` models a missing footprint or one of an invalid
geometry type (both are skipped, lines 440–446); `none` in the other fields
models an absent dictionary key. -/
structure ProcProduct where
  name : String
  footprint_geom_proj : Option Polygon
  cloud_cover_float : Option ℚ
  cloud_cover : Option ℚ
  date : Option String
  quality_score : Option ℚ
  aoi_coverage_pct : Option ℚ
  date_diff_days : Option ℚ
  sensing_date : Option (ℕ × ℕ × ℕ)

instance : Inhabited ProcProduct :=
  ⟨⟨"", none, none, none, none, none, none, none, none⟩⟩

/-- Candidate extraction loop of `select_covering_products` (lines 434–464),
started at original index `i0`.  A product without a (valid) footprint is
skipped but still consumes its index. -/
def extractCandidatesFrom (i0 : ℕ) : List ProcProduct → List CoverageCandidate
  | [] => []
  | p :: ps =>
    match p.footprint_geom_proj with
    | none => extractCandidatesFrom (i0 + 1) ps
    | some footprint =>
      let cc0 := match p.cloud_cover_float with
        | some c => c
        | none => p.cloud_cover.getD 0
      let cloud_cover := max 0 (min 100 cc0)
      ⟨i0, footprint, cloud_cover, p.date.getD "unknown", p.quality_score.getD 0, ∅⟩ ::
        extractCandidatesFrom (i0 + 1) ps

/-- Candidate extraction of `select_covering_products` (lines 434–464). -/
def extractCandidates (processed_products : List ProcProduct) : List CoverageCandidate :=
  extractCandidatesFrom 0 processed_products

/-- `select_covering_products` (coverage_optimizer.py lines 380–537).
The `grid_spacing_meters = None` auto-calculation (line 430) computes
`clamp(√aoi_area_m2 / 100, 50, 200)` with a floating square root; the claims
quantify over the spacing, so the resolved spacing is taken as the argument.
The MultiPolygon `unary_union` (line 425) does not change the `covers`
predicate of the AOI and is absorbed by the abstract `Polygon`.  The
`max_possible_coverage` computation (lines 484–494) only logs and is omitted. -/
def select_covering_products (ortools_available : Bool) (outcome : MilpOutcome)
    (processed_products : List ProcProduct) (aoi_geom : Polygon)
    (aoi_area_m2 : ℚ) (strategy : String)
    (min_coverage_fraction : ℚ) (grid_spacing_meters : ℚ)
    (solver_timeout : ℕ) (cloud_weight quality_weight : ℚ) :
    Except String CoverageResult :=
  if processed_products.isEmpty then
    .error "No products provided for coverage optimization"
  else
    let candidates := extractCandidates processed_products
    if candidates.isEmpty then
      .error "No valid candidates with footprint geometries"
    else
      let sample_points := sample_points_in_polygon aoi_geom grid_spacing_meters
      if sample_points.isEmpty then
        .error "Failed to sample points in AOI"
      else
        let coverage_sets := build_coverage_matrix sample_points (candidates.map (·.footprint))
        if strategy = "coverage_greedy" then
          .ok (greedy_set_cover candidates coverage_sets sample_points aoi_area_m2
            min_coverage_fraction cloud_weight quality_weight)
        else if strategy = "coverage_optimal" then
          match optimal_set_cover_milp ortools_available outcome candidates coverage_sets
            sample_points aoi_area_m2 min_coverage_fraction cloud_weight quality_weight
            solver_timeout with
          | some result => .ok result
          | none =>
            .ok (greedy_set_cover candidates coverage_sets sample_points aoi_area_m2
              min_coverage_fraction cloud_weight quality_weight)
        else .error "Unknown coverage strategy"

/-! ## Calendar model (Python `datetime.date` / `isocalendar`)

`collection_core.py` parses `sensing_date` with `datetime.fromisoformat` and
uses only `sensing_date.year` and `sensing_date.isocalendar()[1]`.  The parse
of the ISO timestamp string is external library behaviour and is modelled by
the structured date `(year, month, day)` carried by `ProcProduct.sensing_date`
(`none` models a missing key or a parse failure, both of which `continue`).
`isocalendar` is modelled by the standard ISO-8601 week-date algorithm. -/

/-- Gregorian leap year. -/
def isLeap (y : ℕ) : Bool := (y % 4 = 0 ∧ y % 100 ≠ 0) ∨ y % 400 = 0

/-- Length of month `m` (1-based) in year `y`. -/
def monthLen (y m : ℕ) : ℕ :=
  if m = 2 then (if isLeap y then 29 else 28)
  else if m = 4 ∨ m = 6 ∨ m = 9 ∨ m = 11 then 30
  else 31

/-- Ordinal day within the year (Jan 1 ↦ 1). -/
def dayOfYear (y m d : ℕ) : ℕ :=
  (List.range (m - 1)).foldl (fun a i => a + monthLen y (i + 1)) 0 + d

/-- Day of week of January 1st of year `y` (Gauss; 0 = Sunday … 6 = Saturday). -/
def gaussJan1 (y : ℕ) : ℕ :=
  (1 + 5 * ((y - 1) % 4) + 4 * ((y - 1) % 100) + 6 * ((y - 1) % 400)) % 7

/-- ISO day of week (1 = Monday … 7 = Sunday). -/
def isoDow (y m d : ℕ) : ℕ :=
  let w := (gaussJan1 y + dayOfYear y m d - 1) % 7
  if w = 0 then 7 else w

/-- Number of ISO weeks in year `y` (52 or 53). -/
def isoWeeksInYear (y : ℕ) : ℕ :=
  if gaussJan1 y = 4 ∨ (isLeap y ∧ gaussJan1 y = 3) then 53 else 52

/-- The `(isoyear, isoweek)` pair of `date(y, m, d).isocalendar()`. -/
def isoYearWeek (y m d : ℕ) : ℕ × ℕ :=
  let w := (10 + dayOfYear y m d - isoDow y m d) / 7
  if w = 0 then (y - 1, isoWeeksInYear (y - 1))
  else if isoWeeksInYear y < w then (y + 1, 1)
  else (y, w)

/-! ## Quality scorer and strategy dispatcher (collection_core.py) -/

/-- `calculate_quality_score` (collection_core.py lines 45–90).  The unused
`product` parameter of the source is dropped. -/
def calculate_quality_score (aoi_coverage_pct cloud_cover_pct date_diff_days
    max_date_diff_days aoi_weight cloud_weight recency_weight : ℚ) : ℚ :=
  let aoi_score := aoi_coverage_pct / 100
  let cloud_score := 1 - cloud_cover_pct / 100
  let recency_score := if 0 < max_date_diff_days then 1 - date_diff_days / max_date_diff_days else 1
  let quality_score := aoi_weight * aoi_score + cloud_weight * cloud_score +
    recency_weight * recency_score
  max 0 (min 1 quality_score)

/-- `p.get("date_diff_days", 0)`. -/
def ddOf (p : ProcProduct) : ℚ := p.date_diff_days.getD 0

/-- `p.get("quality_score", 0)` (sort key and selection key). -/
def scoreOf (p : ProcProduct) : ℚ := p.quality_score.getD 0

/-- Functional model of `product["quality_score"] = quality_score`. -/
def setScore (p : ProcProduct) (q : ℚ) : ProcProduct :=
  ⟨p.name, p.footprint_geom_proj, p.cloud_cover_float, p.cloud_cover, p.date,
   some q, p.aoi_coverage_pct, p.date_diff_days, p.sensing_date⟩

/-- The scoring pass of `auto_select_products` (collection_core.py lines
128–142): `max_date_diff` over the batch, then a `quality_score` for every
product (in place in the source, functionally here). -/
def scoreProducts (processed_products : List ProcProduct)
    (aoi_weight cloud_weight recency_weight : ℚ) : List ProcProduct :=
  match processed_products with
  | [] => []
  | p :: ps =>
    let max_date_diff := (ps.map ddOf).foldl max (ddOf p)
    (p :: ps).map (fun q =>
      setScore q (calculate_quality_score (q.aoi_coverage_pct.getD 0)
        (q.cloud_cover_float.getD 0) (ddOf q) max_date_diff
        aoi_weight cloud_weight recency_weight))

/-- The five values of the `strategy` literal type. -/
inductive Strategy where
  | best_n | all_above_threshold | best_per_week | coverage_greedy | coverage_optimal
deriving DecidableEq

/-- The grouping key of the `best_per_week` strategy (collection_core.py line
170): the f-string `f"{year}-W{week:02d}"` built from the *calendar* year
`sensing_date.year` and the ISO week number `sensing_date.isocalendar()[1]`.
The f-string is injective in the pair (the week number is zero-padded to
exactly two digits), so the key is modelled as the pair itself. -/
def pythonWeekKey (d : ℕ × ℕ × ℕ) : ℕ × ℕ := (d.1, (isoYearWeek d.1 d.2.1 d.2.2).2)

/-- The grouping key of a product, `none` when `sensing_date` is missing or
unparseable (such products are skipped, lines 165–173). -/
def weekKeyOf (key : ℕ × ℕ × ℕ → ℕ × ℕ) (p : ProcProduct) : Option (ℕ × ℕ) :=
  p.sensing_date.map key

/-- Append `p` to the group of key `k`, creating the group at the end when the
key is new — the insertion-order semantics of `defaultdict(list)`. -/
def addToGroups (k : ℕ × ℕ) (p : ProcProduct) :
    List ((ℕ × ℕ) × List ProcProduct) → List ((ℕ × ℕ) × List ProcProduct)
  | [] => [(k, [p])]
  | (k', l) :: rest =>
    if k' = k then (k', l ++ [p]) :: rest else (k', l) :: addToGroups k p rest

/-- The grouping loop of `best_per_week` (lines 162–173) over the sorted
product list, parameterized by the grouping key function. -/
def groupWeeksBy (key : ℕ × ℕ × ℕ → ℕ × ℕ) :
    List ProcProduct → List ((ℕ × ℕ) × List ProcProduct) →
    List ((ℕ × ℕ) × List ProcProduct)
  | [], acc => acc
  | p :: ps, acc =>
    match weekKeyOf key p with
    | none => groupWeeksBy key ps acc
    | some k => groupWeeksBy key ps (addToGroups k p acc)

/-- `max(products, key=lambda p: p.get("quality_score", 0))` over a group. -/
def groupBest : List ProcProduct → Option ProcProduct
  | [] => none
  | x :: xs => some (pyMaxBy scoreOf x xs)

/-- The `best_per_week` branch (collection_core.py lines 159–183),
parameterized by the grouping key function: group the sorted products, take
the best-scored product of each group, sort the picks by score descending. -/
def bestPerWeekBy (key : ℕ × ℕ × ℕ → ℕ × ℕ) (sorted_products : List ProcProduct) :
    List ProcProduct :=
  sortByDesc scoreOf ((groupWeeksBy key sorted_products []).filterMap (fun g => groupBest g.2))

/-- The `coverage_greedy` / `coverage_optimal` branch of `auto_select_products`
(collection_core.py lines 185–226).  `coverageOptimizer` is the call to
`select_covering_products` with every other argument already applied
(the import is conditional in the source); `optimizer_available` models
`COVERAGE_OPTIMIZER_AVAILABLE`, `aoi_inputs_present` models
`aoi_geom is not None and aoi_area_m2 is not None and target_crs is not None`.
The `try/except` around the optimizer is the `Except` match. -/
def coveragePath (coverageOptimizer : List ProcProduct → Except String CoverageResult)
    (optimizer_available aoi_inputs_present : Bool)
    (scored sorted_products : List ProcProduct) (max_products : ℕ) : List ProcProduct :=
  if optimizer_available = false then sorted_products.take max_products
  else if aoi_inputs_present = false then sorted_products.take max_products
  else if scored.all (fun p => p.footprint_geom_proj.isNone) then
    sorted_products.take max_products
  else
    match coverageOptimizer scored with
    | .error _ => sorted_products.take max_products
    | .ok coverage_result =>
      coverage_result.selected_indices.map (fun i => scored.getD i default)

/-- `auto_select_products` (collection_core.py lines 93–230). -/
def auto_select_products
    (coverageOptimizer : List ProcProduct → Except String CoverageResult)
    (optimizer_available aoi_inputs_present : Bool)
    (processed_products : List ProcProduct) (strategy : Strategy)
    (max_products : ℕ) (quality_threshold : ℚ)
    (aoi_weight cloud_weight recency_weight : ℚ) : List ProcProduct :=
  match processed_products with
  | [] => []
  | p :: ps =>
    let scored := scoreProducts (p :: ps) aoi_weight cloud_weight recency_weight
    let sorted_products := sortByDesc scoreOf scored
    match strategy with
    | .best_n => sorted_products.take max_products
    | .all_above_threshold =>
      sorted_products.filter (fun q => quality_threshold ≤ scoreOf q)
    | .best_per_week => bestPerWeekBy pythonWeekKey sorted_products
    | .coverage_greedy =>
      coveragePath coverageOptimizer optimizer_available aoi_inputs_present
        scored sorted_products max_products
    | .coverage_optimal =>
      coveragePath coverageOptimizer optimizer_available aoi_inputs_present
        scored sorted_products max_products

/-! ## Configuration schema (config_schema.py, `AutoSelectConfig`) -/

/-- `AutoSelectConfig` (config_schema.py lines 159–186), before validation.
`max_products` and `solver_timeout_seconds` are Python ints (possibly
negative), hence `ℤ`. -/
structure AutoSelectConfig where
  strategy : Strategy
  max_products : ℤ
  quality_threshold : ℚ
  aoi_coverage_weight : ℚ
  cloud_cover_weight : ℚ
  recency_weight : ℚ
  min_coverage_fraction : ℚ
  grid_spacing_meters : Option ℚ
  solver_timeout_seconds : ℤ
  coverage_cloud_weight : ℚ
  coverage_quality_weight : ℚ

/-- `AutoSelectConfig.__post_init__` (config_schema.py lines 188–226): the
sequence of validation checks, in source order; `.error` models the raised
`ValueError`.  `ortools_available` models the success of `import ortools`
(line 223). -/
def autoSelectValidate (c : AutoSelectConfig) (ortools_available : Bool) :
    Except String Unit :=
  if c.max_products ≤ 0 then .error "max_products must be positive"
  else if ¬ (0 ≤ c.quality_threshold ∧ c.quality_threshold ≤ 1) then
    .error "quality_threshold must be 0-1"
  else if 1 / 100 < |c.aoi_coverage_weight + c.cloud_cover_weight + c.recency_weight - 1| then
    .error "Quality score weights must sum to 1.0"
  else if c.aoi_coverage_weight < 0 ∨ c.cloud_cover_weight < 0 ∨ c.recency_weight < 0 then
    .error "All quality score weights must be non-negative"
  else if ¬ (1 / 2 ≤ c.min_coverage_fraction ∧ c.min_coverage_fraction ≤ 1) then
    .error "min_coverage_fraction must be 0.5-1.0"
  else if (match c.grid_spacing_meters with | some g => decide (g ≤ 0) | none => false) = true then
    .error "grid_spacing_meters must be positive"
  else if c.solver_timeout_seconds ≤ 0 then .error "solver_timeout_seconds must be positive"
  else if 1 / 100 < |c.coverage_cloud_weight + c.coverage_quality_weight - 1| then
    .error "Coverage weights must sum to 1.0"
  else if c.coverage_cloud_weight < 0 ∨ c.coverage_quality_weight < 0 then
    .error "Coverage weights must be non-negative"
  else if c.strategy = Strategy.coverage_optimal ∧ ortools_available = false then
    .error "coverage_optimal strategy requires OR-Tools"
  else .ok ()

/-! ## Spec-side definitions

Definitions written from the claims' words (not from the source), used only
to compare the code against the spec where a claim describes a different
behaviour. -/

/-- Modelled from the spec (claim C6): the sort key of `best_n` with the
claimed tie-break chain — `quality_score` descending, then higher
`aoi_coverage_pct`, then lower cloud percentage, then more recent sensing
date.  `le a b` holds when `a`'s key tuple is lexicographically ≤ `b`'s;
a sensing date is compared chronologically (missing dates compare lowest). -/
def specLeC6 (a b : ProcProduct) : Prop :=
  scoreOf a < scoreOf b ∨ (scoreOf a = scoreOf b ∧
    (a.aoi_coverage_pct.getD 0 < b.aoi_coverage_pct.getD 0 ∨
      (a.aoi_coverage_pct.getD 0 = b.aoi_coverage_pct.getD 0 ∧
        (b.cloud_cover_float.getD 0 < a.cloud_cover_float.getD 0 ∨
          (b.cloud_cover_float.getD 0 = a.cloud_cover_float.getD 0 ∧
            dateRank a ≤ dateRank b)))))
where
  /-- Chronological rank of the sensing date (`none` lowest). -/
  dateRank (p : ProcProduct) : ℕ :=
    match p.sensing_date with
    | none => 0
    | some (y, m, d) => y * 10000 + m * 100 + d + 1

instance : DecidableRel specLeC6 := fun a b => by
  unfold specLeC6; infer_instance

/-- Modelled from the spec (claim C6): stable descending insertion for the
claimed tie-break order. -/
def specInsertC6 (x : ProcProduct) : List ProcProduct → List ProcProduct
  | [] => [x]
  | y :: ys => if specLeC6 y x then x :: y :: ys else y :: specInsertC6 x ys

/-- Modelled from the spec (claim C6): stable descending sort for the claimed
tie-break order. -/
def specSortC6 : List ProcProduct → List ProcProduct
  | [] => []
  | x :: xs => specInsertC6 x (specSortC6 xs)

/-- Modelled from the spec (claim C6): `best_n` as the claim states it — the
first `max_products` products sorted by `quality_score` descending with the
claimed stable tie-break chain. -/
def bestNSpec (processed_products : List ProcProduct)
    (max_products : ℕ) (aoi_weight cloud_weight recency_weight : ℚ) : List ProcProduct :=
  (specSortC6 (scoreProducts processed_products aoi_weight cloud_weight recency_weight)).take
    max_products

/-- Modelled from the spec (claim C7): the grouping key `best_per_week` is
claimed to use — the ISO year-week pair `(isoyear, isoweek)` of the sensing
date. -/
def isoPairKey (d : ℕ × ℕ × ℕ) : ℕ × ℕ := isoYearWeek d.1 d.2.1 d.2.2

/-- Modelled from the spec (claim C7): `best_per_week` as the claim states
it — identical to the code's pipeline except that products are grouped by
the ISO year-week pair of their sensing date. -/
def bestPerWeekSpec (processed_products : List ProcProduct)
    (aoi_weight cloud_weight recency_weight : ℚ) : List ProcProduct :=
  bestPerWeekBy isoPairKey
    (sortByDesc scoreOf (scoreProducts processed_products aoi_weight cloud_weight recency_weight))

/-! ## Concrete fixtures used by witnesses and counterexamples -/

/-- A unit-square AOI: bounds `(0,0,1,1)`, closed containment test. -/
def unitSquare : Polygon :=
  ⟨0, 0, 1, 1, fun p => decide (0 ≤ p.1 ∧ p.1 ≤ 1 ∧ 0 ≤ p.2 ∧ p.2 ≤ 1)⟩

/-- A footprint with bounds `(0,0,1,1)` covering every point. -/
def fullPoly : Polygon := ⟨0, 0, 1, 1, fun _ => true⟩

/-- Three sample points (only their count matters to the solvers). -/
def pts3 : List (ℚ × ℚ) := [(0, 0), (1, 0), (2, 0)]

/-- A cloudless, quality-1 candidate with original index 0. -/
def candA : CoverageCandidate := ⟨0, fullPoly, 0, "", 1, ∅⟩

/-- A cloudless, quality-1 candidate with original index 1. -/
def candB : CoverageCandidate := ⟨1, fullPoly, 0, "", 1, ∅⟩

/-- A processed product with no footprint geometry (it is skipped by
`select_covering_products` but keeps its original index). -/
def prodNoFp : ProcProduct := ⟨"p0", none, none, none, none, none, none, none, none⟩

/-- A processed product whose footprint covers everything. -/
def prodFull : ProcProduct :=
  ⟨"p1", some fullPoly, some 0, none, none, some 1, none, none, none⟩

/-- An all-covering MILP outcome with status `OPTIMAL`. -/
def outcomeOpt : MilpOutcome := ⟨.OPTIMAL, fun _ => true⟩

/-- An MILP outcome with status `INFEASIBLE`. -/
def outcomeInf : MilpOutcome := ⟨.INFEASIBLE, fun _ => true⟩

/-- The concrete `CoverageResult` of the MILP extraction on
`[candA, candB]`, `[{0},{1}]`, three points, AOI area 100. -/
def rMilpW : CoverageResult := ⟨[0, 1], 2/3, 100/3, 2, 2, "milp", some true⟩

/-- A product with quality tie but worst AOI coverage, listed first. -/
def prodTieA : ProcProduct := ⟨"A", none, some 0, none, none, none, some 0, some 0, none⟩

/-- A product with quality tie and best AOI coverage, listed second. -/
def prodTieB : ProcProduct :=
  ⟨"B", none, some 100, none, none, none, some 100, some 0, none⟩

/-- Selected indices of a dispatcher result (empty on error). -/
def exceptIndices (e : Except String CoverageResult) : List ℕ :=
  match e with
  | .ok r => r.selected_indices
  | .error _ => []

/-- `num_candidates` of a dispatcher result (0 on error). -/
def exceptNumCandidates (e : Except String CoverageResult) : ℕ :=
  match e with
  | .ok r => r.num_candidates
  | .error _ => 0

/-- The concrete result of `select_covering_products` on
`[prodNoFp, prodFull]` over the unit square with spacing 1 and full target
coverage: the only valid candidate keeps its original index 1. -/
def rGreedyW : CoverageResult := ⟨[1], 1, 0, 1, 1, "greedy", some false⟩

/-- Lookup of a group by key in the association list of groups. -/
def assocGet : List ((ℕ × ℕ) × List ProcProduct) → (ℕ × ℕ) → List ProcProduct
  | [], _ => []
  | (k', l) :: rest, k => if k' = k then l else assocGet rest k

/-- A product sensed on 2019-01-01 (ISO year-week `(2019, 1)`). -/
def prodWeekA : ProcProduct :=
  ⟨"W1", none, some 0, none, none, none, some 100, some 0, some (2019, 1, 1)⟩

/-- A product sensed on 2019-12-30 (ISO year-week `(2020, 1)`, but calendar
year 2019 and ISO week number 1, so the code's key collides with 2019-01-01). -/
def prodWeekB : ProcProduct :=
  ⟨"W2", none, some 0, none, none, none, some 0, some 0, some (2019, 12, 30)⟩

/-! ## C10 — empty input to `auto_select_products` -/

/-- C10: for every strategy (and any optimizer dependency, availability flags
and parameters), `auto_select_products` on an empty product list returns the
empty list; the guard precedes every other computation, so nothing (in
particular not the coverage optimizer, whose behaviour the result does not
depend on) is invoked and nothing can raise. -/
theorem auto_select_products_empty
    (coverageOptimizer : List ProcProduct → Except String CoverageResult)
    (optimizer_available aoi_inputs_present : Bool) (strategy : Strategy)
    (max_products : ℕ) (quality_threshold aoi_weight cloud_weight recency_weight : ℚ) :
    auto_select_products coverageOptimizer optimizer_available aoi_inputs_present []
      strategy max_products quality_threshold aoi_weight cloud_weight recency_weight = [] :=
  rfl

/-! ## C3 — coverage-area identity -/

/-- C3: every `CoverageResult` produced by `greedy_set_cover`, and every one
returned by `optimal_set_cover_milp`, satisfies
`uncovered_area_m2 = (1 − coverage_fraction) · aoi_area_m2` — exactly in the
rational model, hence within any relative-error tolerance. -/
theorem coverage_area_identity (candidates : List CoverageCandidate)
    (coverage_sets : List (Finset ℕ)) (sample_points : List (ℚ × ℚ))
    (aoi_area_m2 min_coverage_fraction cloud_weight quality_weight : ℚ)
    (ortools_available : Bool) (outcome : MilpOutcome) (time_limit_seconds : ℕ) :
    (greedy_set_cover candidates coverage_sets sample_points aoi_area_m2
        min_coverage_fraction cloud_weight quality_weight).uncovered_area_m2 =
      (1 - (greedy_set_cover candidates coverage_sets sample_points aoi_area_m2
        min_coverage_fraction cloud_weight quality_weight).coverage_fraction) * aoi_area_m2
    ∧ ∀ r, optimal_set_cover_milp ortools_available outcome candidates coverage_sets
        sample_points aoi_area_m2 min_coverage_fraction cloud_weight quality_weight
        time_limit_seconds = some r →
        r.uncovered_area_m2 = (1 - r.coverage_fraction) * aoi_area_m2 := by
  constructor
  · simp only [greedy_set_cover]
    ring
  · intro r h
    unfold optimal_set_cover_milp at h
    split at h
    · exact absurd h (by simp)
    · split at h <;> simp only [Option.some.injEq] at h <;>
        first
        | exact absurd h (fun hh => Option.noConfusion hh)
        | (subst h; rfl)

/-- Witness for C3: the identity holds on a concrete greedy run and a concrete
`OPTIMAL` MILP outcome. -/
theorem coverage_area_identity_witness :
    (greedy_set_cover [candA, candB] [{0}, {1}] pts3 100 (1/2) (3/10)
        (7/10)).uncovered_area_m2 =
      (1 - (greedy_set_cover [candA, candB] [{0}, {1}] pts3 100 (1/2) (3/10)
        (7/10)).coverage_fraction) * 100
    ∧ rMilpW.uncovered_area_m2 = (1 - rMilpW.coverage_fraction) * 100 :=
  ⟨(coverage_area_identity [candA, candB] [{0}, {1}] pts3 100 (1/2) (3/10) (7/10)
      true outcomeOpt 300).1,
   (coverage_area_identity [candA, candB] [{0}, {1}] pts3 100 (1/2) (3/10) (7/10)
      true outcomeOpt 300).2 rMilpW (by with_unfolding_all decide)⟩

/-! ## C5 — MILP failure fallback -/

/-- C5: when the MILP solve terminates with a status other than `OPTIMAL` or
`FEASIBLE`, `optimal_set_cover_milp` returns `none`, and
`select_covering_products` with strategy `"coverage_optimal"` returns exactly
what it returns with strategy `"coverage_greedy"` on the same instance (the
greedy solver's result), never an error from the MILP failure. -/
theorem milp_failure_fallback (ortools_available : Bool) (outcome : MilpOutcome)
    (candidates : List CoverageCandidate) (coverage_sets : List (Finset ℕ))
    (sample_points : List (ℚ × ℚ)) (processed_products : List ProcProduct)
    (aoi_geom : Polygon)
    (aoi_area_m2 min_coverage_fraction grid_spacing_meters cloud_weight quality_weight : ℚ)
    (solver_timeout time_limit_seconds : ℕ)
    (h1 : outcome.status ≠ MilpStatus.OPTIMAL) (h2 : outcome.status ≠ MilpStatus.FEASIBLE) :
    optimal_set_cover_milp ortools_available outcome candidates coverage_sets sample_points
      aoi_area_m2 min_coverage_fraction cloud_weight quality_weight time_limit_seconds = none
    ∧ select_covering_products ortools_available outcome processed_products aoi_geom
        aoi_area_m2 "coverage_optimal" min_coverage_fraction grid_spacing_meters
        solver_timeout cloud_weight quality_weight =
      select_covering_products ortools_available outcome processed_products aoi_geom
        aoi_area_m2 "coverage_greedy" min_coverage_fraction grid_spacing_meters
        solver_timeout cloud_weight quality_weight := by
  have hm : ∀ (cs : List CoverageCandidate) (ss : List (Finset ℕ)) (sp : List (ℚ × ℚ))
      (tl : ℕ), optimal_set_cover_milp ortools_available outcome cs ss sp aoi_area_m2
        min_coverage_fraction cloud_weight quality_weight tl = none := by
    intro cs ss sp tl
    unfold optimal_set_cover_milp
    split
    · rfl
    · split
      · exact absurd (by assumption) h1
      · exact absurd (by assumption) h2
      all_goals rfl
  refine ⟨hm candidates coverage_sets sample_points time_limit_seconds, ?_⟩
  simp only [select_covering_products]
  split_ifs with hemp hcand hsp hg1 hg2 ho1 ho2 <;>
    first
      | rfl
      | (exact absurd (by assumption) (by decide))
      | (exact absurd rfl (by assumption))
      | (rw [hm])

/-- Witness for C5: on a concrete instance with an `INFEASIBLE` outcome the
MILP driver returns `none` and the `coverage_optimal` dispatch equals the
`coverage_greedy` dispatch. -/
theorem milp_failure_fallback_witness :
    optimal_set_cover_milp true outcomeInf [candA, candB] [{0}, {1}] pts3
      100 1 (3/10) (7/10) 300 = none
    ∧ select_covering_products true outcomeInf [prodNoFp, prodFull] unitSquare
        100 "coverage_optimal" 1 1 300 (3/10) (7/10) =
      select_covering_products true outcomeInf [prodNoFp, prodFull] unitSquare
        100 "coverage_greedy" 1 1 300 (3/10) (7/10) :=
  milp_failure_fallback true outcomeInf [candA, candB] [{0}, {1}] pts3
    [prodNoFp, prodFull] unitSquare 100 1 1 (3/10) (7/10) 300 300
    (by decide) (by decide)

/-! ## C9 — configuration-time weight enforcement -/

/-- C9: given that every other field of an `AutoSelectConfig` passes its own
check, construction (`__post_init__`) succeeds exactly when the three quality
score weights sum to 1.0 within ±0.01 and none of them is negative; whenever
the sum is off by more than 0.01 or a weight is negative, a `ValueError` is
raised. -/
theorem autoselect_weight_enforcement (c : AutoSelectConfig) (ortools_available : Bool)
    (hother : 0 < c.max_products
      ∧ (0 ≤ c.quality_threshold ∧ c.quality_threshold ≤ 1)
      ∧ (1/2 ≤ c.min_coverage_fraction ∧ c.min_coverage_fraction ≤ 1)
      ∧ (∀ g, c.grid_spacing_meters = some g → 0 < g)
      ∧ 0 < c.solver_timeout_seconds
      ∧ |c.coverage_cloud_weight + c.coverage_quality_weight - 1| ≤ 1/100
      ∧ 0 ≤ c.coverage_cloud_weight ∧ 0 ≤ c.coverage_quality_weight
      ∧ (c.strategy = Strategy.coverage_optimal → ortools_available = true)) :
    autoSelectValidate c ortools_available = .ok () ↔
      (|c.aoi_coverage_weight + c.cloud_cover_weight + c.recency_weight - 1| ≤ 1/100
        ∧ 0 ≤ c.aoi_coverage_weight ∧ 0 ≤ c.cloud_cover_weight ∧ 0 ≤ c.recency_weight) := by
  obtain ⟨hmp, hqt, hmcf, hgrid, hst, hcw, hccw, hcqw, hort⟩ := hother
  unfold autoSelectValidate
  rw [if_neg (by omega), if_neg (not_not_intro ⟨hqt.1, hqt.2⟩)]
  by_cases hw1 : 1/100 < |c.aoi_coverage_weight + c.cloud_cover_weight + c.recency_weight - 1|
  · rw [if_pos hw1]
    constructor
    · intro h; exact absurd h (by simp)
    · intro h; exact absurd h.1 (not_le.2 hw1)
  · rw [if_neg hw1]
    by_cases hw2 : c.aoi_coverage_weight < 0 ∨ c.cloud_cover_weight < 0 ∨ c.recency_weight < 0
    · rw [if_pos hw2]
      constructor
      · intro h; exact absurd h (by simp)
      · intro h
        rcases hw2 with h2 | h2 | h2
        · exact absurd h.2.1 (not_le.2 h2)
        · exact absurd h.2.2.1 (not_le.2 h2)
        · exact absurd h.2.2.2 (not_le.2 h2)
    · rw [if_neg hw2, if_neg (not_not_intro ⟨hmcf.1, hmcf.2⟩)]
      rw [if_neg (by
        cases hg : c.grid_spacing_meters with
        | none => simp
        | some g => simp [hg, decide_eq_true_iff, not_le.2 (hgrid g hg)])]
      rw [if_neg (by omega), if_neg (not_lt.2 hcw)]
      rw [if_neg (by
        intro hcon
        rcases hcon with h2 | h2
        · exact absurd h2 (not_lt.2 hccw)
        · exact absurd h2 (not_lt.2 hcqw))]
      rw [if_neg (by
        intro hcon
        rw [hort hcon.1] at hcon
        exact absurd hcon.2 (by decide))]
      push_neg at hw2
      simp only [eq_self_iff_true, true_iff]
      exact ⟨not_lt.1 hw1, hw2.1, hw2.2.1, hw2.2.2⟩

/-- Witness for C9: a fully valid configuration (default weights
0.4/0.4/0.2) is accepted. -/
theorem autoselect_weight_enforcement_witness :
    autoSelectValidate
      ⟨Strategy.best_n, 5, 7/10, 2/5, 2/5, 1/5, 99/100, none, 300, 3/10, 7/10⟩ true =
    Except.ok () :=
  (autoselect_weight_enforcement
      ⟨Strategy.best_n, 5, 7/10, 2/5, 2/5, 1/5, 99/100, none, 300, 3/10, 7/10⟩ true
      ⟨by norm_num, by norm_num, by norm_num,
       fun g h => absurd h (by simp), by norm_num, by norm_num, by norm_num,
       by norm_num, fun h => absurd h (by simp)⟩).mpr (by norm_num)

/-! ## C8 — grid sampler -/

/-- Membership in `numpy.arange(start, stop, step)` for a positive step:
exactly the grid values `start + k·step` that are strictly below `stop`. -/
theorem mem_npArange (start stop step : ℚ) (hstep : 0 < step) (a : ℚ) :
    a ∈ npArange start stop step ↔ ∃ k : ℕ, a = start + (k : ℚ) * step ∧ a < stop := by
  unfold npArange
  rw [List.mem_map]
  constructor
  · rintro ⟨k, hk, he⟩
    have hkn : (k : ℤ) < ⌈(stop - start) / step⌉ := Int.lt_toNat.mp (List.mem_range.mp hk)
    have h2 : (k : ℚ) < (stop - start) / step := by exact_mod_cast Int.lt_ceil.mp hkn
    have h3 : (k : ℚ) * step < stop - start := (lt_div_iff₀ hstep).mp h2
    exact ⟨k, he.symm, by rw [← he]; linarith⟩
  · rintro ⟨k, he, hlt⟩
    have h2 : (k : ℚ) < (stop - start) / step :=
      (lt_div_iff₀ hstep).mpr (by rw [he] at hlt; linarith)
    have h1 : (k : ℤ) < ⌈(stop - start) / step⌉ := Int.lt_ceil.mpr (by exact_mod_cast h2)
    exact ⟨k, List.mem_range.mpr (Int.lt_toNat.mpr h1), he.symm⟩

/-- C8 (amended): for a positive spacing `s`, `sample_points_in_polygon`
returns exactly the points `(x, y)` with `x ∈ {minx, minx+s, minx+2s, …}`,
`y ∈ {miny, miny+s, miny+2s, …}` that lie in the *half-open* bounding box
(`x < maxx`, `y < maxy` — the upper edges are excluded, unlike the claim's
closed bounding box) and that the polygon covers. -/
theorem sample_points_in_polygon_mem (P : Polygon) (s : ℚ) (hs : 0 < s) (x y : ℚ) :
    (x, y) ∈ sample_points_in_polygon P s ↔
      ((∃ i : ℕ, x = P.minx + (i : ℚ) * s) ∧ x < P.maxx
        ∧ (∃ j : ℕ, y = P.miny + (j : ℚ) * s) ∧ y < P.maxy
        ∧ P.covers (x, y) = true) := by
  unfold sample_points_in_polygon
  simp only [List.mem_flatten, List.mem_map]
  constructor
  · rintro ⟨l, ⟨x', hx', rfl⟩, hy⟩
    obtain ⟨y', hy', hsome⟩ := List.mem_filterMap.mp hy
    by_cases hc : P.covers (x', y') = true
    · rw [if_pos hc] at hsome
      obtain ⟨h1, h2⟩ := Prod.mk.injEq .. ▸ (Option.some.injEq .. ▸ hsome :
        (x', y') = (x, y))
      subst h1; subst h2
      obtain ⟨i, hxe, hxlt⟩ := (mem_npArange _ _ _ hs _).mp hx'
      obtain ⟨j, hye, hylt⟩ := (mem_npArange _ _ _ hs _).mp hy'
      exact ⟨⟨i, hxe⟩, hxlt, ⟨j, hye⟩, hylt, hc⟩
    · rw [if_neg hc] at hsome
      exact absurd hsome (by simp)
  · rintro ⟨⟨i, hxe⟩, hxlt, ⟨j, hye⟩, hylt, hc⟩
    refine ⟨(npArange P.miny P.maxy s).filterMap
      (fun y' => if P.covers (x, y') = true then some (x, y') else none),
      ⟨x, (mem_npArange _ _ _ hs _).mpr ⟨i, hxe, hxlt⟩, rfl⟩,
      List.mem_filterMap.mpr
        ⟨y, (mem_npArange _ _ _ hs _).mpr ⟨j, hye, hylt⟩, by rw [if_pos hc]⟩⟩

/-- Counterexample for C8 as stated: on the unit-square AOI with spacing 1,
the point `(1, 1)` is a grid point (`minx + 1·s`, `miny + 1·s`), lies within
the closed bounding box and is covered by the polygon, yet it is not among
the returned sample points (the code's `arange` excludes the upper edges);
the code returns only `[(0, 0)]`. -/
theorem grid_sampler_counterexample :
    sample_points_in_polygon unitSquare 1 = [((0 : ℚ), (0 : ℚ))]
    ∧ ((1 : ℚ), (1 : ℚ)) ∉ sample_points_in_polygon unitSquare 1
    ∧ (1 : ℚ) = unitSquare.minx + (1 : ℚ) * 1 ∧ (1 : ℚ) ≤ unitSquare.maxx
    ∧ (1 : ℚ) = unitSquare.miny + (1 : ℚ) * 1 ∧ (1 : ℚ) ≤ unitSquare.maxy
    ∧ unitSquare.covers (1, 1) = true := by
  have hlist : sample_points_in_polygon unitSquare 1 = [((0 : ℚ), (0 : ℚ))] := by
    with_unfolding_all decide
  refine ⟨hlist, ?_, by norm_num [unitSquare], by norm_num [unitSquare],
    by norm_num [unitSquare], by norm_num [unitSquare], by decide⟩
  rw [hlist]
  intro hmem
  rw [List.mem_singleton] at hmem
  exact absurd (congrArg Prod.fst hmem) (by norm_num)

/-- Witness for C8 (amended): with spacing 1 on the unit square, the origin
satisfies the characterization and is indeed sampled. -/
theorem sample_points_in_polygon_mem_witness :
    (0 : ℚ) < 1 ∧ ((0 : ℚ), (0 : ℚ)) ∈ sample_points_in_polygon unitSquare 1 :=
  ⟨by norm_num,
   (sample_points_in_polygon_mem unitSquare 1 (by norm_num) 0 0).mpr
     ⟨⟨0, by norm_num [unitSquare]⟩, by norm_num [unitSquare],
      ⟨0, by norm_num [unitSquare]⟩, by norm_num [unitSquare], by decide⟩⟩

/-! ## Stable-sort lemmas (shared by C6 and C7) -/

theorem insertKeyDesc_perm (key : α → ℚ) (x : α) (l : List α) :
    (insertKeyDesc key x l).Perm (x :: l) := by
  induction l with
  | nil => exact List.Perm.refl _
  | cons y ys ih =>
    unfold insertKeyDesc
    split
    · exact List.Perm.refl _
    · exact (ih.cons y).trans (List.Perm.swap x y ys)

theorem sortByDesc_perm (key : α → ℚ) (l : List α) : (sortByDesc key l).Perm l := by
  induction l with
  | nil => exact List.Perm.refl _
  | cons x xs ih => exact (insertKeyDesc_perm key x (sortByDesc key xs)).trans (ih.cons x)

theorem insertKeyDesc_pairwise {key : α → ℚ} {x : α} {l : List α}
    (h : l.Pairwise (fun a b => key b ≤ key a)) :
    (insertKeyDesc key x l).Pairwise (fun a b => key b ≤ key a) := by
  induction l with
  | nil => simp [insertKeyDesc]
  | cons y ys ih =>
    rw [List.pairwise_cons] at h
    obtain ⟨hy, hys⟩ := h
    unfold insertKeyDesc
    split
    · next hxy =>
      refine List.Pairwise.cons ?_ (List.Pairwise.cons hy hys)
      intro z hz
      rcases List.mem_cons.mp hz with rfl | hz
      · exact hxy
      · exact le_trans (hy z hz) hxy
    · next hxy =>
      refine List.Pairwise.cons ?_ (ih hys)
      intro z hz
      rcases List.mem_cons.mp ((insertKeyDesc_perm key x ys).mem_iff.mp hz) with rfl | hz2
      · exact le_of_lt (not_le.mp hxy)
      · exact hy z hz2

theorem sortByDesc_pairwise (key : α → ℚ) (l : List α) :
    (sortByDesc key l).Pairwise (fun a b => key b ≤ key a) := by
  induction l with
  | nil => exact List.Pairwise.nil
  | cons x xs ih => exact insertKeyDesc_pairwise ih

/-- Stability of the sort: every key class keeps its input order. -/
theorem insertKeyDesc_filter (key : α → ℚ) (x : α) (l : List α) (c : ℚ) :
    (insertKeyDesc key x l).filter (fun a => decide (key a = c)) =
      (x :: l).filter (fun a => decide (key a = c)) := by
  induction l with
  | nil => rfl
  | cons y ys ih =>
    unfold insertKeyDesc
    split
    · rfl
    · next hxy =>
      have hlt : key x < key y := not_le.mp hxy
      by_cases hx : key x = c
      · have hyc : ¬ key y = c := fun h => absurd (hx.trans h.symm) (ne_of_lt hlt)
        simp [List.filter_cons, ih, hx, hyc]
      · simp [List.filter_cons, ih, hx]

theorem sortByDesc_filter (key : α → ℚ) (l : List α) (c : ℚ) :
    (sortByDesc key l).filter (fun a => decide (key a = c)) =
      l.filter (fun a => decide (key a = c)) := by
  induction l with
  | nil => rfl
  | cons x xs ih =>
    rw [sortByDesc, insertKeyDesc_filter, List.filter_cons, List.filter_cons, ih]

theorem scoreProducts_length (l : List ProcProduct) (aw cw rw : ℚ) :
    (scoreProducts l aw cw rw).length = l.length := by
  cases l with
  | nil => rfl
  | cons p ps => simp [scoreProducts]

/-! ## C6 — the `best_n` strategy -/

/-- C6 (amended): `auto_select_products` with strategy `best_n` returns the
first `max_products` entries of a *stable* descending sort of the scored
products by `quality_score` — ties are broken by the original list order,
not by AOI coverage, cloud cover or recency.  Concretely: the returned list
extended with a remainder is a permutation of the scored batch, that extended
list is sorted by score descending and preserves the input order within every
score class, and the returned prefix has length `min max_products N`. -/
theorem best_n_strategy
    (coverageOptimizer : List ProcProduct → Except String CoverageResult)
    (optimizer_available aoi_inputs_present : Bool)
    (processed_products : List ProcProduct) (max_products : ℕ)
    (quality_threshold aoi_weight cloud_weight recency_weight : ℚ) :
    ∃ rest : List ProcProduct,
      (auto_select_products coverageOptimizer optimizer_available aoi_inputs_present
          processed_products .best_n max_products quality_threshold
          aoi_weight cloud_weight recency_weight ++ rest).Perm
        (scoreProducts processed_products aoi_weight cloud_weight recency_weight)
      ∧ List.Pairwise (fun a b => scoreOf b ≤ scoreOf a)
          (auto_select_products coverageOptimizer optimizer_available aoi_inputs_present
            processed_products .best_n max_products quality_threshold
            aoi_weight cloud_weight recency_weight ++ rest)
      ∧ (∀ c : ℚ,
          (auto_select_products coverageOptimizer optimizer_available aoi_inputs_present
              processed_products .best_n max_products quality_threshold
              aoi_weight cloud_weight recency_weight ++ rest).filter
            (fun p => decide (scoreOf p = c)) =
          (scoreProducts processed_products aoi_weight cloud_weight recency_weight).filter
            (fun p => decide (scoreOf p = c)))
      ∧ (auto_select_products coverageOptimizer optimizer_available aoi_inputs_present
          processed_products .best_n max_products quality_threshold
          aoi_weight cloud_weight recency_weight).length
        = min max_products processed_products.length := by
  cases processed_products with
  | nil =>
    refine ⟨[], ?_, ?_, fun c => ?_, ?_⟩ <;> simp [auto_select_products, scoreProducts]
  | cons p ps =>
    set scored := scoreProducts (p :: ps) aoi_weight cloud_weight recency_weight with hscored
    have hsel : auto_select_products coverageOptimizer optimizer_available aoi_inputs_present
        (p :: ps) .best_n max_products quality_threshold
        aoi_weight cloud_weight recency_weight
        = (sortByDesc scoreOf scored).take max_products := rfl
    refine ⟨(sortByDesc scoreOf scored).drop max_products, ?_, ?_, ?_, ?_⟩
    · rw [hsel, List.take_append_drop]
      exact sortByDesc_perm scoreOf scored
    · rw [hsel, List.take_append_drop]
      exact sortByDesc_pairwise scoreOf scored
    · intro c
      rw [hsel, List.take_append_drop]
      exact sortByDesc_filter scoreOf scored c
    · rw [hsel, List.length_take, (sortByDesc_perm scoreOf scored).length_eq,
        scoreProducts_length]

/-- Counterexample for C6 as stated: with default weights `0.4/0.4/0.2` both
products score exactly `0.6`, so they tie; the claim's tie-break would put
the higher-AOI product `prodTieB` first, but the code's plain stable sort
keeps the input order and returns `prodTieA`. -/
theorem best_n_counterexample :
    (auto_select_products (fun _ => .error "unavailable") false false
        [prodTieA, prodTieB] .best_n 1 (7/10) (2/5) (2/5) (1/5)).map
      (fun p => p.aoi_coverage_pct) = [some 0]
    ∧ (bestNSpec [prodTieA, prodTieB] 1 (2/5) (2/5) (1/5)).map
        (fun p => p.aoi_coverage_pct) = [some 100]
    ∧ (scoreProducts [prodTieA, prodTieB] (2/5) (2/5) (1/5)).map scoreOf
        = [3/5, 3/5] := by
  refine ⟨?_, ?_, ?_⟩ <;> with_unfolding_all decide

/-! ## Greedy-loop lemmas (shared by C1, C2, C4) -/

theorem candCost_pos (cloud_weight quality_weight : ℚ) (c : CoverageCandidate) :
    0 < candCost cloud_weight quality_weight c :=
  lt_of_lt_of_le (by norm_num) (le_max_right _ _)

theorem scanStep_spec (candidates : List CoverageCandidate)
    (coverage_sets : List (Finset ℕ)) (selected : List ℕ) (uncovered : Finset ℕ)
    (cloud_weight quality_weight : ℚ) (acc : Option ℕ × ℚ) (j : ℕ) :
    (scanStep candidates coverage_sets selected uncovered cloud_weight quality_weight
        acc j) = acc
    ∨ ((scanStep candidates coverage_sets selected uncovered cloud_weight quality_weight
          acc j).1 = some j
        ∧ j ∉ selected ∧ (coverage_sets.getD j ∅) ∩ uncovered ≠ ∅) := by
  unfold scanStep
  split_ifs with h1 h2 h3
  · exact Or.inl rfl
  · exact Or.inl rfl
  · exact Or.inr ⟨rfl, h1, fun he => h2 (by rw [he]; rfl)⟩
  · exact Or.inl rfl

theorem scanStep_isSome (candidates : List CoverageCandidate)
    (coverage_sets : List (Finset ℕ)) (selected : List ℕ) (uncovered : Finset ℕ)
    (cloud_weight quality_weight : ℚ) (acc : Option ℕ × ℚ) (j : ℕ)
    (h : acc.1.isSome) :
    (scanStep candidates coverage_sets selected uncovered cloud_weight quality_weight
      acc j).1.isSome := by
  rcases scanStep_spec candidates coverage_sets selected uncovered cloud_weight
    quality_weight acc j with he | ⟨he, _, _⟩
  · rw [he]; exact h
  · rw [he]; rfl

/-- A skipped candidate (already selected or zero gain) leaves the
accumulator unchanged. -/
theorem scanStep_skip (candidates : List CoverageCandidate)
    (coverage_sets : List (Finset ℕ)) (selected : List ℕ) (uncovered : Finset ℕ)
    (cloud_weight quality_weight : ℚ) (acc : Option ℕ × ℚ) (j : ℕ)
    (h : j ∈ selected ∨ (coverage_sets.getD j ∅) ∩ uncovered = ∅) :
    scanStep candidates coverage_sets selected uncovered cloud_weight quality_weight
      acc j = acc := by
  rcases scanStep_spec candidates coverage_sets selected uncovered cloud_weight
    quality_weight acc j with he | ⟨_, hksel, hkne⟩
  · exact he
  · rcases h with h | h
    · exact absurd h hksel
    · exact absurd h hkne

/-- An unselected candidate with positive marginal gain wins against the
initial accumulator `(none, 0)` (its gain-per-cost ratio is positive because
the cost is clamped to at least `0.01`). -/
theorem scanStep_none_select (candidates : List CoverageCandidate)
    (coverage_sets : List (Finset ℕ)) (selected : List ℕ) (uncovered : Finset ℕ)
    (cloud_weight quality_weight : ℚ) (j : ℕ)
    (hsel : j ∉ selected) (hne : (coverage_sets.getD j ∅) ∩ uncovered ≠ ∅) :
    (scanStep candidates coverage_sets selected uncovered cloud_weight quality_weight
      (none, 0) j).1 = some j := by
  unfold scanStep
  rw [if_neg hsel]
  split_ifs with h1 h2
  · exact absurd (Finset.card_eq_zero.mp h1) hne
  · rfl
  · exact absurd (div_pos (by exact_mod_cast Nat.pos_of_ne_zero h1)
      (candCost_pos cloud_weight quality_weight (candidates.getD j default))) h2

theorem bestScan_isSome (candidates : List CoverageCandidate)
    (coverage_sets : List (Finset ℕ)) (selected : List ℕ) (uncovered : Finset ℕ)
    (cloud_weight quality_weight : ℚ) (l : List ℕ) :
    ∀ acc : Option ℕ × ℚ, acc.1.isSome →
      (bestScan candidates coverage_sets selected uncovered cloud_weight quality_weight
        l acc).1.isSome := by
  induction l with
  | nil => intro acc h; exact h
  | cons k ks ih =>
    intro acc h
    exact ih _ (scanStep_isSome candidates coverage_sets selected uncovered cloud_weight
      quality_weight acc k h)

theorem bestScan_spec (candidates : List CoverageCandidate)
    (coverage_sets : List (Finset ℕ)) (selected : List ℕ) (uncovered : Finset ℕ)
    (cloud_weight quality_weight : ℚ) (l : List ℕ) :
    ∀ (acc : Option ℕ × ℚ) (j : ℕ),
      (bestScan candidates coverage_sets selected uncovered cloud_weight quality_weight
          l acc).1 = some j →
      acc.1 = some j
      ∨ (j ∈ l ∧ j ∉ selected ∧ (coverage_sets.getD j ∅) ∩ uncovered ≠ ∅) := by
  induction l with
  | nil => intro acc j h; exact Or.inl h
  | cons k ks ih =>
    intro acc j h
    rcases ih _ j h with hacc | ⟨hmem, hsel, hne⟩
    · rcases scanStep_spec candidates coverage_sets selected uncovered cloud_weight
        quality_weight acc k with he | ⟨he, hksel, hkne⟩
      · exact Or.inl (he ▸ hacc)
      · rw [hacc] at he
        obtain rfl := Option.some.inj he
        exact Or.inr ⟨List.mem_cons_self _ ks, hksel, hkne⟩
    · exact Or.inr ⟨List.mem_cons_of_mem k hmem, hsel, hne⟩

theorem bestScan_all_skip (candidates : List CoverageCandidate)
    (coverage_sets : List (Finset ℕ)) (selected : List ℕ) (uncovered : Finset ℕ)
    (cloud_weight quality_weight : ℚ) (l : List ℕ) :
    ∀ acc : Option ℕ × ℚ,
      (∀ j ∈ l, j ∈ selected ∨ (coverage_sets.getD j ∅) ∩ uncovered = ∅) →
      bestScan candidates coverage_sets selected uncovered cloud_weight quality_weight
        l acc = acc := by
  induction l with
  | nil => intro acc _; rfl
  | cons k ks ih =>
    intro acc hall
    rw [bestScan, scanStep_skip candidates coverage_sets selected uncovered cloud_weight
      quality_weight acc k (hall k (List.mem_cons_self k ks))]
    exact ih acc (fun j hj => hall j (List.mem_cons_of_mem k hj))

theorem findBest_some (candidates : List CoverageCandidate)
    (coverage_sets : List (Finset ℕ)) (selected : List ℕ) (uncovered : Finset ℕ)
    (cloud_weight quality_weight : ℚ) (j : ℕ)
    (h : findBest candidates coverage_sets selected uncovered cloud_weight
      quality_weight = some j) :
    j < candidates.length ∧ j ∉ selected ∧ (coverage_sets.getD j ∅) ∩ uncovered ≠ ∅ := by
  rcases bestScan_spec candidates coverage_sets selected uncovered cloud_weight
    quality_weight (List.range candidates.length) (none, 0) j h with hn | ⟨hm, hs, hne⟩
  · exact absurd hn (by simp)
  · exact ⟨List.mem_range.mp hm, hs, hne⟩

/-- When the whole scan from the initial accumulator `(none, 0)` returns no
winner, every scanned candidate was skipped: already selected or zero gain. -/
theorem bestScan_none_spec (candidates : List CoverageCandidate)
    (coverage_sets : List (Finset ℕ)) (selected : List ℕ) (uncovered : Finset ℕ)
    (cloud_weight quality_weight : ℚ) (l : List ℕ)
    (h : (bestScan candidates coverage_sets selected uncovered cloud_weight
      quality_weight l (none, 0)).1 = none) :
    ∀ j ∈ l, j ∈ selected ∨ (coverage_sets.getD j ∅) ∩ uncovered = ∅ := by
  induction l with
  | nil => intro j hj; cases hj
  | cons k ks ih =>
    by_cases hk : k ∈ selected ∨ (coverage_sets.getD k ∅) ∩ uncovered = ∅
    · rw [bestScan, scanStep_skip candidates coverage_sets selected uncovered
        cloud_weight quality_weight (none, 0) k hk] at h
      intro j hj
      rcases List.mem_cons.mp hj with rfl | hj
      · exact hk
      · exact ih h j hj
    · push_neg at hk
      exfalso
      have hsome := bestScan_isSome candidates coverage_sets selected uncovered
        cloud_weight quality_weight ks
        (scanStep candidates coverage_sets selected uncovered cloud_weight
          quality_weight (none, 0) k)
        (by rw [scanStep_none_select candidates coverage_sets selected uncovered
          cloud_weight quality_weight k hk.1 hk.2]; rfl)
      rw [bestScan] at h
      rw [h] at hsome
      simp at hsome

theorem findBest_none (candidates : List CoverageCandidate)
    (coverage_sets : List (Finset ℕ)) (selected : List ℕ) (uncovered : Finset ℕ)
    (cloud_weight quality_weight : ℚ)
    (h : findBest candidates coverage_sets selected uncovered cloud_weight
      quality_weight = none) :
    ∀ j, j < candidates.length → j ∉ selected →
      (coverage_sets.getD j ∅) ∩ uncovered = ∅ := by
  intro j hj hsel
  rcases bestScan_none_spec candidates coverage_sets selected uncovered cloud_weight
    quality_weight (List.range candidates.length) h j (List.mem_range.mpr hj) with
    hs | hg
  · exact absurd hs hsel
  · exact hg

/-- Removing a set that meets `uncovered` strictly shrinks it. -/
theorem sdiff_card_lt_of_inter_ne (uncovered s : Finset ℕ) (h : s ∩ uncovered ≠ ∅) :
    (uncovered \ s).card < uncovered.card := by
  obtain ⟨x, hx⟩ := Finset.nonempty_iff_ne_empty.mpr h
  obtain ⟨hxs, hxu⟩ := Finset.mem_inter.mp hx
  exact Finset.card_lt_card
    ((Finset.ssubset_iff_of_subset (Finset.sdiff_subset)).mpr
      ⟨x, hxu, fun hc => (Finset.mem_sdiff.mp hc).2 hxs⟩)

/-- Master characterization of the greedy loop: the final state appends a
block `ext` of newly selected positions to `selected` and subtracts exactly
the union of their coverage sets from `uncovered`; every new position is a
valid unselected candidate position, no position repeats, and at most `fuel`
positions are selected. -/
theorem greedyGo_master (candidates : List CoverageCandidate)
    (coverage_sets : List (Finset ℕ)) (cloud_weight quality_weight : ℚ)
    (total_points : ℕ) (target_points : ℤ) :
    ∀ (fuel : ℕ) (selected : List ℕ) (uncovered : Finset ℕ),
      ∃ ext : List ℕ,
        greedyGo candidates coverage_sets cloud_weight quality_weight total_points
          target_points fuel selected uncovered
          = (selected ++ ext, uncovered \ listUnion coverage_sets ext)
        ∧ (∀ j ∈ ext, j < candidates.length)
        ∧ (selected.Nodup → (selected ++ ext).Nodup)
        ∧ ext.length ≤ fuel := by
  intro fuel
  induction fuel with
  | zero =>
    intro selected uncovered
    exact ⟨[], by simp [greedyGo, listUnion], by simp, by simp, le_refl 0⟩
  | succ fuel ih =>
    intro selected uncovered
    rw [greedyGo]
    by_cases hcond : (total_points : ℤ) - target_points < (uncovered.card : ℤ)
    · rw [if_pos hcond]
      cases hfb : findBest candidates coverage_sets selected uncovered cloud_weight
        quality_weight with
      | none => exact ⟨[], by simp [listUnion], by simp, by simp, by simp⟩
      | some j =>
        obtain ⟨hjN, hjsel, _⟩ := findBest_some candidates coverage_sets selected
          uncovered cloud_weight quality_weight j hfb
        obtain ⟨ext, heq, hlt, hnd, hlen⟩ :=
          ih (selected ++ [j]) (uncovered \ coverage_sets.getD j ∅)
        refine ⟨j :: ext, ?_, ?_, ?_, ?_⟩
        · dsimp only
          rw [heq]
          refine Prod.ext ?_ ?_
          · simp
          · rw [listUnion]
            ext x
            simp only [Finset.mem_sdiff, Finset.mem_union, not_or]
            tauto
        · intro i hi
          rcases List.mem_cons.mp hi with rfl | hi
          · exact hjN
          · exact hlt i hi
        · intro hnodup
          have h1 : (selected ++ [j]).Nodup := by
            rw [List.nodup_append]
            exact ⟨hnodup, List.nodup_singleton j,
              fun a ha hb => hjsel ((List.mem_singleton.mp hb) ▸ ha)⟩
          have := hnd h1
          rwa [List.append_assoc, List.singleton_append] at this
        · simpa using Nat.succ_le_succ hlen
    · rw [if_neg hcond]
      exact ⟨[], by simp [listUnion], by simp, by simp, by simp⟩

/-- At exit, the greedy loop has either met the point target or no remaining
candidate has positive marginal gain (provided the fuel covers `|uncovered|`,
which the initial call guarantees). -/
theorem greedyGo_exit (candidates : List CoverageCandidate)
    (coverage_sets : List (Finset ℕ)) (cloud_weight quality_weight : ℚ)
    (total_points : ℕ) (target_points : ℤ) :
    ∀ (fuel : ℕ) (selected : List ℕ) (uncovered : Finset ℕ),
      uncovered.card ≤ fuel →
      (((greedyGo candidates coverage_sets cloud_weight quality_weight total_points
          target_points fuel selected uncovered).2.card : ℤ)
          ≤ (total_points : ℤ) - target_points)
      ∨ findBest candidates coverage_sets
          (greedyGo candidates coverage_sets cloud_weight quality_weight total_points
            target_points fuel selected uncovered).1
          (greedyGo candidates coverage_sets cloud_weight quality_weight total_points
            target_points fuel selected uncovered).2
          cloud_weight quality_weight = none := by
  intro fuel
  induction fuel with
  | zero =>
    intro selected uncovered hcard
    have hemp : uncovered = ∅ := Finset.card_eq_zero.mp (Nat.le_zero.mp hcard)
    right
    subst hemp
    show (bestScan candidates coverage_sets selected ∅ cloud_weight quality_weight
      (List.range candidates.length) (none, 0)).1 = none
    rw [bestScan_all_skip candidates coverage_sets selected ∅ cloud_weight
      quality_weight (List.range candidates.length) (none, 0)
      (fun j _ => Or.inr (Finset.inter_empty _))]
  | succ fuel ih =>
    intro selected uncovered hcard
    rw [greedyGo]
    by_cases hcond : (total_points : ℤ) - target_points < (uncovered.card : ℤ)
    · rw [if_pos hcond]
      cases hfb : findBest candidates coverage_sets selected uncovered cloud_weight
        quality_weight with
      | none => exact Or.inr hfb
      | some j =>
        dsimp only
        apply ih
        have hlt := sdiff_card_lt_of_inter_ne uncovered (coverage_sets.getD j ∅)
          (findBest_some candidates coverage_sets selected uncovered cloud_weight
            quality_weight j hfb).2.2
        omega
    · rw [if_neg hcond]
      left
      dsimp only
      omega

/-! ## C4 — greedy termination and strict progress -/

/-- C4: whenever an iteration of the greedy loop selects a candidate (the
argmax scan returns one), subtracting its coverage set strictly shrinks the
uncovered set; and the loop of `greedy_set_cover` performs at most
`min(N, M)` selecting iterations (`num_selected` counts exactly the
iterations that selected a candidate). -/
theorem greedy_termination
    (candidates : List CoverageCandidate) (coverage_sets : List (Finset ℕ))
    (sample_points : List (ℚ × ℚ))
    (aoi_area_m2 min_coverage_fraction cloud_weight quality_weight : ℚ) :
    (∀ (selected : List ℕ) (uncovered : Finset ℕ) (j : ℕ),
        findBest candidates coverage_sets selected uncovered cloud_weight quality_weight
          = some j →
        (uncovered \ coverage_sets.getD j ∅).card < uncovered.card)
    ∧ (greedy_set_cover candidates coverage_sets sample_points aoi_area_m2
        min_coverage_fraction cloud_weight quality_weight).num_selected
      ≤ min candidates.length sample_points.length := by
  constructor
  · intro selected uncovered j h
    exact sdiff_card_lt_of_inter_ne uncovered _
      (findBest_some candidates coverage_sets selected uncovered cloud_weight
        quality_weight j h).2.2
  · show (greedyGo candidates coverage_sets cloud_weight quality_weight
        sample_points.length
        (pyTrunc ((sample_points.length : ℚ) * min_coverage_fraction))
        sample_points.length [] (Finset.range sample_points.length)).1.length
      ≤ min candidates.length sample_points.length
    obtain ⟨ext, heq, hlt, hnd, hlen⟩ := greedyGo_master candidates coverage_sets
      cloud_weight quality_weight sample_points.length
      (pyTrunc ((sample_points.length : ℚ) * min_coverage_fraction))
      sample_points.length [] (Finset.range sample_points.length)
    rw [heq]
    simp only [List.nil_append]
    refine le_min ?_ hlen
    have hnodup : ext.Nodup := by simpa using hnd List.nodup_nil
    calc ext.length = ext.toFinset.card := (List.toFinset_card_of_nodup hnodup).symm
      _ ≤ (Finset.range candidates.length).card :=
          Finset.card_le_card (fun x hx =>
            Finset.mem_range.mpr (hlt x (List.mem_toFinset.mp hx)))
      _ = candidates.length := Finset.card_range _

/-- Witness for C4: on a concrete state the selecting step strictly shrinks
the uncovered set, and a concrete greedy run selects at most `min(N, M)`
products. -/
theorem greedy_termination_witness :
    (({0, 1, 2} : Finset ℕ) \ [({0} : Finset ℕ), {1}].getD 0 ∅).card
        < ({0, 1, 2} : Finset ℕ).card
    ∧ (greedy_set_cover [candA, candB] [{0}, {1}] pts3 100 (1/2) (3/10)
        (7/10)).num_selected ≤ min 2 3 :=
  ⟨(greedy_termination [candA, candB] [{0}, {1}] pts3 100 (1/2) (3/10) (7/10)).1
      [] {0, 1, 2} 0 (by with_unfolding_all decide),
   (greedy_termination [candA, candB] [{0}, {1}] pts3 100 (1/2) (3/10) (7/10)).2⟩

/-! ## Universe lemmas (for C1) -/

theorem mem_unionAll (coverage_sets : List (Finset ℕ)) (x : ℕ) :
    x ∈ unionAll coverage_sets ↔ ∃ s ∈ coverage_sets, x ∈ s := by
  induction coverage_sets with
  | nil => simp [unionAll]
  | cons s ss ih => simp [unionAll, ih]

theorem unionAll_subset_range (coverage_sets : List (Finset ℕ)) (M : ℕ)
    (h : ∀ s ∈ coverage_sets, s ⊆ Finset.range M) :
    unionAll coverage_sets ⊆ Finset.range M := by
  intro x hx
  obtain ⟨s, hs, hxs⟩ := (mem_unionAll coverage_sets x).mp hx
  exact h s hs hxs

theorem getD_mem_of_lt {α : Type} (l : List α) (d : α) (j : ℕ)
    (h : j < l.length) : l.getD j d ∈ l := by
  rw [List.getD_eq_getElem l d h]
  exact List.getElem_mem h

theorem listUnion_subset_unionAll (coverage_sets : List (Finset ℕ)) (ext : List ℕ)
    (h : ∀ j ∈ ext, j < coverage_sets.length) :
    listUnion coverage_sets ext ⊆ unionAll coverage_sets := by
  induction ext with
  | nil => simp [listUnion]
  | cons j js ih =>
    rw [listUnion]
    refine Finset.union_subset ?_ (ih (fun i hi => h i (List.mem_cons_of_mem j hi)))
    intro x hx
    exact (mem_unionAll coverage_sets x).mpr
      ⟨coverage_sets.getD j ∅,
       getD_mem_of_lt coverage_sets ∅ j (h j (List.mem_cons_self j js)), hx⟩

theorem getD_subset_listUnion (coverage_sets : List (Finset ℕ)) (ext : List ℕ)
    (j : ℕ) (h : j ∈ ext) :
    coverage_sets.getD j ∅ ⊆ listUnion coverage_sets ext := by
  induction ext with
  | nil => cases h
  | cons k ks ih =>
    rw [listUnion]
    rcases List.mem_cons.mp h with rfl | hk
    · exact Finset.subset_union_left
    · exact (ih hk).trans Finset.subset_union_right

theorem unionAll_inter_empty (coverage_sets : List (Finset ℕ)) (t : Finset ℕ)
    (h : ∀ j, j < coverage_sets.length → coverage_sets.getD j ∅ ∩ t = ∅) :
    unionAll coverage_sets ∩ t = ∅ := by
  rw [Finset.eq_empty_iff_forall_not_mem]
  intro x hx
  obtain ⟨hxU, hxt⟩ := Finset.mem_inter.mp hx
  obtain ⟨s, hs, hxs⟩ := (mem_unionAll coverage_sets x).mp hxU
  obtain ⟨i, hi, hieq⟩ := List.mem_iff_getElem.mp hs
  have hgd : coverage_sets.getD i ∅ = s := by
    rw [List.getD_eq_getElem coverage_sets ∅ hi, hieq]
  have : x ∈ coverage_sets.getD i ∅ ∩ t := Finset.mem_inter.mpr ⟨hgd ▸ hxs, hxt⟩
  rw [h i hi] at this
  exact absurd this (Finset.not_mem_empty x)

/-! ## C1 — greedy feasibility -/

/-- C1 (amended): let `target = int(M · min_coverage_fraction)` (the greedy
loop's floored point target).  If the universe `⋃ⱼ coverage_sets[j]` contains
at least `target` points, greedy returns `coverage_fraction ≥ target / M`
(which can be strictly below `min_coverage_fraction` because of the floor);
otherwise greedy terminates at the universe bound,
`coverage_fraction = |⋃ⱼ coverage_sets[j]| / M`. -/
theorem greedy_feasibility
    (candidates : List CoverageCandidate) (coverage_sets : List (Finset ℕ))
    (sample_points : List (ℚ × ℚ))
    (aoi_area_m2 min_coverage_fraction cloud_weight quality_weight : ℚ)
    (hlen : coverage_sets.length = candidates.length)
    (hsub : ∀ s ∈ coverage_sets, s ⊆ Finset.range sample_points.length) :
    (pyTrunc ((sample_points.length : ℚ) * min_coverage_fraction)
        ≤ ((unionAll coverage_sets).card : ℤ) →
      ((pyTrunc ((sample_points.length : ℚ) * min_coverage_fraction) : ℚ)
          / (sample_points.length : ℚ)
        ≤ (greedy_set_cover candidates coverage_sets sample_points aoi_area_m2
            min_coverage_fraction cloud_weight quality_weight).coverage_fraction))
    ∧ (((unionAll coverage_sets).card : ℤ)
        < pyTrunc ((sample_points.length : ℚ) * min_coverage_fraction) →
      (greedy_set_cover candidates coverage_sets sample_points aoi_area_m2
          min_coverage_fraction cloud_weight quality_weight).coverage_fraction
        = ((unionAll coverage_sets).card : ℚ) / (sample_points.length : ℚ)) := by
  set M := sample_points.length with hM
  set target := pyTrunc ((M : ℚ) * min_coverage_fraction) with htarget
  set U := unionAll coverage_sets with hU
  obtain ⟨ext, heq, hltN, hnd, hlenext⟩ := greedyGo_master candidates coverage_sets
    cloud_weight quality_weight M target M [] (Finset.range M)
  have hexit := greedyGo_exit candidates coverage_sets cloud_weight quality_weight
    M target M [] (Finset.range M) (by simp)
  rw [heq] at hexit
  simp only [List.nil_append] at heq hexit
  set LU := listUnion coverage_sets ext with hLU
  set unc := Finset.range M \ LU with hunc
  have hcf : (greedy_set_cover candidates coverage_sets sample_points aoi_area_m2
      min_coverage_fraction cloud_weight quality_weight).coverage_fraction
      = 1 - ((unc.card : ℚ) / (M : ℚ)) := by
    show 1 - (((greedyGo candidates coverage_sets cloud_weight quality_weight M target
      M [] (Finset.range M)).2.card : ℚ) / (M : ℚ)) = _
    rw [heq]
  have hLUU : LU ⊆ U :=
    listUnion_subset_unionAll coverage_sets ext (fun j hj => hlen ▸ hltN j hj)
  have hUM : U ⊆ Finset.range M := unionAll_subset_range coverage_sets M hsub
  have huncM : unc ⊆ Finset.range M := Finset.sdiff_subset
  have hUcard : U.card ≤ M := by
    have := Finset.card_le_card hUM
    rwa [Finset.card_range] at this
  have hunccard : unc.card ≤ M := by
    have := Finset.card_le_card huncM
    rwa [Finset.card_range] at this
  -- when the loop exits with no selectable candidate, the uncovered set is
  -- exactly the complement of the universe
  have hD2 : findBest candidates coverage_sets ext unc cloud_weight quality_weight
      = none → unc = Finset.range M \ U := by
    intro hfb
    have hall := findBest_none candidates coverage_sets ext unc cloud_weight
      quality_weight hfb
    have hallj : ∀ j, j < coverage_sets.length → coverage_sets.getD j ∅ ∩ unc = ∅ := by
      intro j hj
      by_cases hjext : j ∈ ext
      · rw [Finset.eq_empty_iff_forall_not_mem]
        intro x hx
        obtain ⟨hxs, hxu⟩ := Finset.mem_inter.mp hx
        exact (Finset.mem_sdiff.mp hxu).2
          (getD_subset_listUnion coverage_sets ext j hjext hxs)
      · exact hall j (hlen ▸ hj) hjext
    have hUinter : U ∩ unc = ∅ := unionAll_inter_empty coverage_sets unc hallj
    apply Finset.Subset.antisymm
    · intro x hx
      rw [Finset.mem_sdiff]
      refine ⟨huncM hx, fun hxU => ?_⟩
      have hmem : x ∈ U ∩ unc := Finset.mem_inter.mpr ⟨hxU, hx⟩
      rw [hUinter] at hmem
      exact absurd hmem (Finset.not_mem_empty x)
    · exact Finset.sdiff_subset_sdiff (Finset.Subset.refl _) hLUU
  constructor
  · -- the universe reaches the target
    intro hA
    rw [hcf]
    by_cases hM0 : M = 0
    · rw [hM0]
      push_cast
      rw [div_zero, div_zero]
      norm_num
    · have hMpos : (0 : ℚ) < (M : ℚ) := by positivity
      rw [div_le_iff₀ hMpos]
      have hexp : (1 - (unc.card : ℚ) / (M : ℚ)) * (M : ℚ) = (M : ℚ) - unc.card := by
        field_simp
      rw [hexp]
      rcases hexit with hD1 | hfb
      · have hq : ((unc.card : ℚ)) ≤ (M : ℚ) - (target : ℚ) := by
          have h0 : ((unc.card : ℤ) : ℚ) ≤ (((M : ℤ) - target : ℤ) : ℚ) :=
            Int.cast_le.mpr hD1
          push_cast at h0
          exact h0
        linarith
      · have huncU : unc = Finset.range M \ U := hD2 hfb
        have hcardunc : unc.card = M - U.card := by
          rw [huncU, Finset.card_sdiff hUM, Finset.card_range]
        have hcast : (unc.card : ℚ) = (M : ℚ) - (U.card : ℚ) := by
          rw [hcardunc]
          push_cast [Nat.cast_sub hUcard]
          ring
        have hAq : (target : ℚ) ≤ (U.card : ℚ) := by exact_mod_cast hA
        linarith
  · -- the universe is below the target
    intro hB
    rcases hexit with hD1 | hfb
    · exfalso
      -- the covered points form a subset of the universe of size ≥ target
      have hcov : Finset.range M \ unc ⊆ U := by
        rw [hunc, Finset.sdiff_sdiff_self_left]
        exact Finset.inter_subset_right.trans hLUU
      have hcovcard : (Finset.range M \ unc).card = M - unc.card := by
        rw [Finset.card_sdiff huncM, Finset.card_range]
      have hcovU : (Finset.range M \ unc).card ≤ U.card := Finset.card_le_card hcov
      omega
    · have huncU : unc = Finset.range M \ U := hD2 hfb
      rw [hcf, huncU, Finset.card_sdiff hUM, Finset.card_range]
      by_cases hM0 : M = 0
      · exfalso
        have htz : target = 0 := by
          rw [htarget, hM0]
          norm_num [pyTrunc]
        have hU0 : U.card = 0 := by omega
        rw [htz, hU0] at hB
        exact absurd hB (by norm_num)
      · have hMpos : (0 : ℚ) < (M : ℚ) := by positivity
        rw [Nat.cast_sub hUcard]
        field_simp

/-- Witness for C1 (amended): a concrete instance where the universe meets the
floored target and greedy reaches it: `M = 3`, `f = 1/2`, `target = 1`,
universe `{0, 1}`; greedy covers one point, `coverage_fraction = 1/3 ≥ 1/3`. -/
theorem greedy_feasibility_witness :
    (pyTrunc (((pts3.length : ℚ)) * (1/2)) ≤ ((unionAll [{0}, {1}]).card : ℤ))
    ∧ ((pyTrunc (((pts3.length : ℚ)) * (1/2)) : ℚ) / (pts3.length : ℚ)
        ≤ (greedy_set_cover [candA, candB] [{0}, {1}] pts3 100 (1/2) (3/10)
            (7/10)).coverage_fraction) :=
  ⟨by with_unfolding_all decide,
   (greedy_feasibility [candA, candB] [{0}, {1}] pts3 100 (1/2) (3/10) (7/10)
      (by decide) (by with_unfolding_all decide)).1 (by with_unfolding_all decide)⟩

/-- Counterexample for C1 as stated: `M = 3` sample points, two candidates
covering `{0}` and `{1}`, `min_coverage_fraction = 1/2`.  The universe covers
`2/3 ≥ 1/2` of the points, yet greedy stops at the floored target
`int(3 · 0.5) = 1` with `coverage_fraction = 1/3 < 1/2`. -/
theorem greedy_feasibility_counterexample :
    ((1 : ℚ)/2 ≤ ((unionAll [{0}, {1}]).card : ℚ) / (pts3.length : ℚ))
    ∧ (greedy_set_cover [candA, candB] [{0}, {1}] pts3 100 (1/2) (3/10)
        (7/10)).coverage_fraction = 1/3
    ∧ ¬ ((1 : ℚ)/2
        ≤ (greedy_set_cover [candA, candB] [{0}, {1}] pts3 100 (1/2) (3/10)
            (7/10)).coverage_fraction) := by
  refine ⟨?_, ?_, ?_⟩ <;> with_unfolding_all decide

/-! ## C2 — selection validity -/

theorem extractCandidatesFrom_index_bound (processed_products : List ProcProduct) :
    ∀ (i0 : ℕ) (c : CoverageCandidate), c ∈ extractCandidatesFrom i0 processed_products →
      i0 ≤ c.index ∧ c.index < i0 + processed_products.length := by
  induction processed_products with
  | nil => intro i0 c h; cases h
  | cons p ps ih =>
    intro i0 c h
    rw [extractCandidatesFrom] at h
    cases hp : p.footprint_geom_proj with
    | none =>
      rw [hp] at h
      obtain ⟨ha, hb⟩ := ih (i0 + 1) c h
      refine ⟨by omega, ?_⟩
      show c.index < i0 + (ps.length + 1)
      omega
    | some fp =>
      rw [hp] at h
      rcases List.mem_cons.mp h with rfl | h2
      · refine ⟨le_refl _, ?_⟩
        show i0 < i0 + (ps.length + 1)
        omega
      · obtain ⟨ha, hb⟩ := ih (i0 + 1) c h2
        refine ⟨by omega, ?_⟩
        show c.index < i0 + (ps.length + 1)
        omega

theorem extractCandidatesFrom_index_pairwise (processed_products : List ProcProduct) :
    ∀ i0 : ℕ,
      ((extractCandidatesFrom i0 processed_products).map (·.index)).Pairwise (· < ·) := by
  induction processed_products with
  | nil => intro i0; simp [extractCandidatesFrom]
  | cons p ps ih =>
    intro i0
    rw [extractCandidatesFrom]
    cases hp : p.footprint_geom_proj with
    | none => exact ih (i0 + 1)
    | some fp =>
      rw [List.map_cons, List.pairwise_cons]
      refine ⟨?_, ih (i0 + 1)⟩
      intro x hx
      obtain ⟨c, hc, rfl⟩ := List.mem_map.mp hx
      have := (extractCandidatesFrom_index_bound ps (i0 + 1) c hc).1
      show i0 < c.index
      omega

/-- Mapping distinct valid positions to candidate `index` fields keeps them
distinct when the `index` fields themselves are distinct. -/
theorem mapIdx_nodup (candidates : List CoverageCandidate) (posList : List ℕ)
    (hidx : (candidates.map (·.index)).Nodup)
    (hpos : posList.Nodup) (hlt : ∀ j ∈ posList, j < candidates.length) :
    (posList.map (fun j => (candidates.getD j default).index)).Nodup := by
  refine List.Nodup.map_on ?_ hpos
  intro x hx y hy hxy
  have hxl := hlt x hx
  have hyl := hlt y hy
  have hx' : x < (candidates.map (·.index)).length := by simpa using hxl
  have hy' : y < (candidates.map (·.index)).length := by simpa using hyl
  have heq : (candidates.map (·.index))[x] = (candidates.map (·.index))[y] := by
    rw [List.getElem_map, List.getElem_map]
    rw [List.getD_eq_getElem candidates default hxl,
      List.getD_eq_getElem candidates default hyl] at hxy
    exact hxy
  exact (List.Nodup.getElem_inj_iff hidx).mp heq

/-- Validity of greedy results: distinct selected indices, consistent
`num_selected`, and indices below any bound that dominates every candidate's
`index` field. -/
theorem greedy_result_valid (candidates : List CoverageCandidate)
    (coverage_sets : List (Finset ℕ)) (sample_points : List (ℚ × ℚ))
    (aoi_area_m2 min_coverage_fraction cloud_weight quality_weight : ℚ) (B : ℕ)
    (hidx : (candidates.map (·.index)).Pairwise (· < ·))
    (hbound : ∀ c ∈ candidates, c.index < B) :
    (greedy_set_cover candidates coverage_sets sample_points aoi_area_m2
        min_coverage_fraction cloud_weight quality_weight).selected_indices.Nodup
    ∧ (greedy_set_cover candidates coverage_sets sample_points aoi_area_m2
        min_coverage_fraction cloud_weight quality_weight).num_selected
      = (greedy_set_cover candidates coverage_sets sample_points aoi_area_m2
          min_coverage_fraction cloud_weight quality_weight).selected_indices.length
    ∧ ∀ i ∈ (greedy_set_cover candidates coverage_sets sample_points aoi_area_m2
        min_coverage_fraction cloud_weight quality_weight).selected_indices, i < B := by
  obtain ⟨ext, heq, hlt, hnd, hlen⟩ := greedyGo_master candidates coverage_sets
    cloud_weight quality_weight sample_points.length
    (pyTrunc ((sample_points.length : ℚ) * min_coverage_fraction))
    sample_points.length [] (Finset.range sample_points.length)
  have hsel : (greedy_set_cover candidates coverage_sets sample_points aoi_area_m2
      min_coverage_fraction cloud_weight quality_weight).selected_indices
      = ext.map (fun j => (candidates.getD j default).index) := by
    show ((greedyGo candidates coverage_sets cloud_weight quality_weight
      sample_points.length
      (pyTrunc ((sample_points.length : ℚ) * min_coverage_fraction))
      sample_points.length [] (Finset.range sample_points.length)).1.map
        (fun j => (candidates.getD j default).index)) = _
    rw [heq]
    rfl
  have hnum : (greedy_set_cover candidates coverage_sets sample_points aoi_area_m2
      min_coverage_fraction cloud_weight quality_weight).num_selected
      = (greedy_set_cover candidates coverage_sets sample_points aoi_area_m2
          min_coverage_fraction cloud_weight quality_weight).selected_indices.length := by
    rw [hsel]
    show (greedyGo candidates coverage_sets cloud_weight quality_weight
      sample_points.length
      (pyTrunc ((sample_points.length : ℚ) * min_coverage_fraction))
      sample_points.length [] (Finset.range sample_points.length)).1.length = _
    rw [heq, List.length_map]
    rfl
  refine ⟨?_, hnum, ?_⟩
  · rw [hsel]
    exact mapIdx_nodup candidates ext (hidx.imp ne_of_lt)
      (by simpa using hnd List.nodup_nil) (fun j hj => hlt j hj)
  · intro i hi
    rw [hsel] at hi
    obtain ⟨j, hj, rfl⟩ := List.mem_map.mp hi
    exact hbound _ (getD_mem_of_lt candidates default j (hlt j hj))

/-- Validity of MILP extraction results, under the same index hypotheses. -/
theorem milp_result_valid (ortools_available : Bool) (outcome : MilpOutcome)
    (candidates : List CoverageCandidate) (coverage_sets : List (Finset ℕ))
    (sample_points : List (ℚ × ℚ))
    (aoi_area_m2 min_coverage_fraction cloud_weight quality_weight : ℚ)
    (time_limit_seconds : ℕ) (B : ℕ) (r : CoverageResult)
    (hidx : (candidates.map (·.index)).Pairwise (· < ·))
    (hbound : ∀ c ∈ candidates, c.index < B)
    (h : optimal_set_cover_milp ortools_available outcome candidates coverage_sets
      sample_points aoi_area_m2 min_coverage_fraction cloud_weight quality_weight
      time_limit_seconds = some r) :
    r.selected_indices.Nodup ∧ r.num_selected = r.selected_indices.length
    ∧ ∀ i ∈ r.selected_indices, i < B := by
  have main : ∀ rr : CoverageResult,
      rr.selected_indices = ((List.range candidates.length).filter
        (fun j => outcome.solution j)).map (fun j => (candidates.getD j default).index) →
      rr.num_selected = rr.selected_indices.length →
      rr.selected_indices.Nodup ∧ rr.num_selected = rr.selected_indices.length
        ∧ ∀ i ∈ rr.selected_indices, i < B := by
    intro rr hsel hnum
    refine ⟨?_, hnum, ?_⟩
    · rw [hsel]
      exact mapIdx_nodup candidates _ (hidx.imp ne_of_lt)
        (List.Nodup.filter _ (List.nodup_range _))
        (fun j hj => List.mem_range.mp (List.mem_of_mem_filter hj))
    · intro i hi
      rw [hsel] at hi
      obtain ⟨j, hj, rfl⟩ := List.mem_map.mp hi
      exact hbound _ (getD_mem_of_lt candidates default j
        (List.mem_range.mp (List.mem_of_mem_filter hj)))
  unfold optimal_set_cover_milp at h
  split at h
  · exact absurd h (by simp)
  · split at h <;> simp only [Option.some.injEq] at h <;>
      first
      | exact absurd h (fun hh => Option.noConfusion hh)
      | exact main r (by rw [← h]) (by rw [← h])

/-- C2 (amended): every `CoverageResult` returned by
`select_covering_products` (from either solver) has pairwise-distinct
`selected_indices`, `num_selected` equal to their number, and every entry in
`[0, |processed_products|)` — the indices point into the *original* product
list, whose length can exceed `num_candidates` when products without a valid
footprint were skipped. -/
theorem selection_validity (ortools_available : Bool) (outcome : MilpOutcome)
    (processed_products : List ProcProduct) (aoi_geom : Polygon)
    (aoi_area_m2 : ℚ) (strategy : String)
    (min_coverage_fraction grid_spacing_meters : ℚ)
    (solver_timeout : ℕ) (cloud_weight quality_weight : ℚ) (r : CoverageResult)
    (h : select_covering_products ortools_available outcome processed_products aoi_geom
      aoi_area_m2 strategy min_coverage_fraction grid_spacing_meters solver_timeout
      cloud_weight quality_weight = .ok r) :
    r.selected_indices.Nodup ∧ r.num_selected = r.selected_indices.length
    ∧ ∀ i ∈ r.selected_indices, i < processed_products.length := by
  have hidx : ((extractCandidates processed_products).map (·.index)).Pairwise (· < ·) :=
    extractCandidatesFrom_index_pairwise processed_products 0
  have hbound : ∀ c ∈ extractCandidates processed_products,
      c.index < processed_products.length := by
    intro c hc
    have := (extractCandidatesFrom_index_bound processed_products 0 c hc).2
    omega
  unfold select_covering_products at h
  dsimp only at h
  split_ifs at h with h1 h2 h3 h4 h5
  all_goals first
    | (exact Except.noConfusion h)
    | (obtain rfl := Except.ok.inj h
       exact greedy_result_valid _ _ _ _ _ _ _ _ hidx hbound)
    | skip
  cases hm : optimal_set_cover_milp ortools_available outcome
      (extractCandidates processed_products)
      (build_coverage_matrix
        (sample_points_in_polygon aoi_geom grid_spacing_meters)
        ((extractCandidates processed_products).map (·.footprint)))
      (sample_points_in_polygon aoi_geom grid_spacing_meters)
      aoi_area_m2 min_coverage_fraction cloud_weight quality_weight solver_timeout with
    | none =>
      rw [hm] at h
      obtain rfl := Except.ok.inj h
      exact greedy_result_valid _ _ _ _ _ _ _ _ hidx hbound
    | some r2 =>
      rw [hm] at h
      obtain rfl := Except.ok.inj h
      exact milp_result_valid _ _ _ _ _ _ _ _ _ _ _ r2 hidx hbound hm

/-- Counterexample for C2 as stated: with a first product lacking a footprint
(skipped but still consuming original index 0) and a second valid product,
the dispatcher returns `selected_indices = [1]` while `num_candidates = 1`,
so an entry fails to lie in `[0, num_candidates)`. -/
theorem selection_validity_counterexample :
    exceptIndices (select_covering_products true outcomeOpt [prodNoFp, prodFull]
      unitSquare 100 "coverage_greedy" 1 1 300 (3/10) (7/10)) = [1]
    ∧ exceptNumCandidates (select_covering_products true outcomeOpt [prodNoFp, prodFull]
      unitSquare 100 "coverage_greedy" 1 1 300 (3/10) (7/10)) = 1
    ∧ ¬ (∀ i ∈ exceptIndices (select_covering_products true outcomeOpt
          [prodNoFp, prodFull] unitSquare 100 "coverage_greedy" 1 1 300 (3/10) (7/10)),
        i < exceptNumCandidates (select_covering_products true outcomeOpt
          [prodNoFp, prodFull] unitSquare 100 "coverage_greedy" 1 1 300 (3/10) (7/10))) := by
  refine ⟨?_, ?_, ?_⟩ <;> with_unfolding_all decide

/-- Witness for C2 (amended): the concrete dispatcher run above satisfies the
amended validity bound (indices below the original product count 2). -/
theorem selection_validity_witness :
    rGreedyW.selected_indices.Nodup
    ∧ rGreedyW.num_selected = rGreedyW.selected_indices.length
    ∧ ∀ i ∈ rGreedyW.selected_indices, i < ([prodNoFp, prodFull] : List ProcProduct).length :=
  selection_validity true outcomeOpt [prodNoFp, prodFull] unitSquare 100
    "coverage_greedy" 1 1 300 (3/10) (7/10) rGreedyW (by with_unfolding_all rfl)

/-! ## C7 — the `best_per_week` strategy -/

theorem mem_map_fst_addToGroups (k : ℕ × ℕ) (p : ProcProduct)
    (gs : List ((ℕ × ℕ) × List ProcProduct)) (k' : ℕ × ℕ) :
    k' ∈ (addToGroups k p gs).map Prod.fst ↔ k' ∈ gs.map Prod.fst ∨ k' = k := by
  induction gs with
  | nil => simp [addToGroups]
  | cons e es ih =>
    obtain ⟨ke, le⟩ := e
    rw [addToGroups]
    split_ifs with he
    · subst he
      simp only [List.map_cons, List.mem_cons]
      constructor
      · intro h; rcases h with h | h
        · exact Or.inl (Or.inl h)
        · exact Or.inl (Or.inr h)
      · intro h
        rcases h with (h | h) | h
        · exact Or.inl h
        · exact Or.inr h
        · exact Or.inl (h ▸ rfl)
    · simp only [List.map_cons, List.mem_cons, ih]
      tauto

theorem nodup_map_fst_addToGroups (k : ℕ × ℕ) (p : ProcProduct)
    (gs : List ((ℕ × ℕ) × List ProcProduct))
    (h : (gs.map Prod.fst).Nodup) : ((addToGroups k p gs).map Prod.fst).Nodup := by
  induction gs with
  | nil => simp [addToGroups]
  | cons e es ih =>
    obtain ⟨ke, le⟩ := e
    rw [List.map_cons, List.nodup_cons] at h
    rw [addToGroups]
    split_ifs with he
    · rw [List.map_cons, List.nodup_cons]
      exact h
    · rw [List.map_cons, List.nodup_cons]
      refine ⟨?_, ih h.2⟩
      intro hc
      rcases (mem_map_fst_addToGroups k p es ke).mp hc with hc | hc
      · exact h.1 hc
      · exact he hc

theorem assocGet_addToGroups (k : ℕ × ℕ) (p : ProcProduct)
    (gs : List ((ℕ × ℕ) × List ProcProduct)) (k' : ℕ × ℕ) :
    assocGet (addToGroups k p gs) k'
      = if k = k' then assocGet gs k' ++ [p] else assocGet gs k' := by
  induction gs with
  | nil =>
    show (if k = k' then [p] else assocGet [] k')
        = if k = k' then assocGet [] k' ++ [p] else assocGet [] k'
    split_ifs with h1 <;> rfl
  | cons e es ih =>
    obtain ⟨ke, le⟩ := e
    rw [addToGroups]
    by_cases he : ke = k
    · rw [if_pos he]
      subst he
      show (if ke = k' then le ++ [p] else assocGet es k')
          = if ke = k' then (if ke = k' then le else assocGet es k') ++ [p]
            else (if ke = k' then le else assocGet es k')
      by_cases h1 : ke = k'
      · simp only [if_pos h1]
      · simp only [if_neg h1]
    · rw [if_neg he]
      show (if ke = k' then le else assocGet (addToGroups k p es) k')
          = if k = k' then (if ke = k' then le else assocGet es k') ++ [p]
            else (if ke = k' then le else assocGet es k')
      by_cases h1 : ke = k'
      · have h2 : ¬ k = k' := fun h2 => he (h1.trans h2.symm)
        simp only [if_pos h1, if_neg h2]
      · by_cases h2 : k = k'
        · simp only [if_neg h1, if_pos h2, ih]
        · simp only [if_neg h1, if_neg h2, ih]

theorem assocGet_groupWeeksBy (key : ℕ × ℕ × ℕ → ℕ × ℕ) (l : List ProcProduct) :
    ∀ (acc : List ((ℕ × ℕ) × List ProcProduct)) (k : ℕ × ℕ),
      assocGet (groupWeeksBy key l acc) k
        = assocGet acc k ++ l.filter (fun p => decide (weekKeyOf key p = some k)) := by
  induction l with
  | nil => intro acc k; simp [groupWeeksBy]
  | cons p ps ih =>
    intro acc k
    rw [groupWeeksBy]
    cases hk : weekKeyOf key p with
    | none =>
      rw [ih, List.filter_cons]
      simp [hk]
    | some kp =>
      rw [ih, assocGet_addToGroups, List.filter_cons]
      by_cases hkk : kp = k
      · subst hkk
        simp [hk, List.append_assoc]
      · simp only [hk, Option.some.injEq, if_pos, if_neg hkk]
        simp [hkk]

theorem nodup_keys_groupWeeksBy (key : ℕ × ℕ × ℕ → ℕ × ℕ) (l : List ProcProduct) :
    ∀ acc : List ((ℕ × ℕ) × List ProcProduct),
      ((acc.map Prod.fst).Nodup) → (((groupWeeksBy key l acc).map Prod.fst).Nodup) := by
  induction l with
  | nil => intro acc h; exact h
  | cons p ps ih =>
    intro acc h
    rw [groupWeeksBy]
    cases hk : weekKeyOf key p with
    | none => exact ih acc h
    | some kp => exact ih _ (nodup_map_fst_addToGroups kp p acc h)

theorem assocGet_of_mem (gs : List ((ℕ × ℕ) × List ProcProduct))
    (k : ℕ × ℕ) (g : List ProcProduct)
    (hnd : (gs.map Prod.fst).Nodup) (hmem : (k, g) ∈ gs) : assocGet gs k = g := by
  induction gs with
  | nil => cases hmem
  | cons e es ih =>
    obtain ⟨ke, le⟩ := e
    rw [List.map_cons, List.nodup_cons] at hnd
    rcases List.mem_cons.mp hmem with he | he
    · injection he with hk hg
      subst hk
      subst hg
      simp [assocGet]
    · rw [assocGet]
      split_ifs with h1
      · exfalso
        subst h1
        exact hnd.1 (List.mem_map.mpr ⟨(ke, g), he, rfl⟩)
      · exact ih hnd.2 he

theorem exists_mem_of_assocGet_ne_nil (gs : List ((ℕ × ℕ) × List ProcProduct))
    (k : ℕ × ℕ) (h : assocGet gs k ≠ []) : ∃ g, (k, g) ∈ gs := by
  induction gs with
  | nil => exact absurd rfl h
  | cons e es ih =>
    obtain ⟨ke, le⟩ := e
    rw [assocGet] at h
    split_ifs at h with h1
    · subst h1
      exact ⟨le, List.mem_cons_self _ _⟩
    · obtain ⟨g, hg⟩ := ih h
      exact ⟨g, List.mem_cons_of_mem _ hg⟩

theorem groupWeeksBy_entry_ne_nil (key : ℕ × ℕ × ℕ → ℕ × ℕ) (l : List ProcProduct) :
    ∀ acc : List ((ℕ × ℕ) × List ProcProduct),
      (∀ e ∈ acc, e.2 ≠ []) → ∀ e ∈ groupWeeksBy key l acc, e.2 ≠ [] := by
  have haddTo : ∀ (k : ℕ × ℕ) (p : ProcProduct) (gs : List ((ℕ × ℕ) × List ProcProduct)),
      (∀ e ∈ gs, e.2 ≠ []) → ∀ e ∈ addToGroups k p gs, e.2 ≠ [] := by
    intro k p gs
    induction gs with
    | nil =>
      intro _ e he
      rw [addToGroups] at he
      rcases List.mem_cons.mp he with rfl | he2
      · simp
      · cases he2
    | cons e0 es ih =>
      obtain ⟨ke, le⟩ := e0
      intro hall e he
      rw [addToGroups] at he
      split_ifs at he with h1
      · rcases List.mem_cons.mp he with rfl | he2
        · simp
        · exact hall e (List.mem_cons_of_mem _ he2)
      · rcases List.mem_cons.mp he with rfl | he2
        · exact hall _ (List.mem_cons_self _ _)
        · exact ih (fun e' he' => hall e' (List.mem_cons_of_mem _ he')) e he2
  induction l with
  | nil => intro acc h; exact h
  | cons p ps ih =>
    intro acc h
    rw [groupWeeksBy]
    cases hk : weekKeyOf key p with
    | none => exact ih acc h
    | some kp => exact ih _ (haddTo kp p acc h)

theorem pyMaxBy_mem (f : α → ℚ) (x : α) (ys : List α) :
    pyMaxBy f x ys ∈ x :: ys := by
  induction ys generalizing x with
  | nil => exact List.mem_cons_self x []
  | cons y ys ih =>
    rw [pyMaxBy]
    split_ifs with h
    · rcases List.mem_cons.mp (ih y) with he | hm
      · rw [he]; exact List.mem_cons_of_mem x (List.mem_cons_self y ys)
      · exact List.mem_cons_of_mem x (List.mem_cons_of_mem y hm)
    · rcases List.mem_cons.mp (ih x) with he | hm
      · rw [he]; exact List.mem_cons_self x (y :: ys)
      · exact List.mem_cons_of_mem x (List.mem_cons_of_mem y hm)

theorem pyMaxBy_le (f : α → ℚ) (x : α) (ys : List α) :
    ∀ z ∈ x :: ys, f z ≤ f (pyMaxBy f x ys) := by
  induction ys generalizing x with
  | nil =>
    intro z hz
    rcases List.mem_cons.mp hz with rfl | hz
    · exact le_refl _
    · cases hz
  | cons y ys ih =>
    intro z hz
    rw [pyMaxBy]
    split_ifs with h
    · rcases List.mem_cons.mp hz with rfl | hz2
      · exact le_trans (le_of_lt h) (ih y y (List.mem_cons_self y ys))
      · rcases List.mem_cons.mp hz2 with rfl | hz3
        · exact ih z z (List.mem_cons_self z ys)
        · exact ih y z (List.mem_cons_of_mem y hz3)
    · rcases List.mem_cons.mp hz with rfl | hz2
      · exact ih z z (List.mem_cons_self z ys)
      · rcases List.mem_cons.mp hz2 with rfl | hz3
        · exact le_trans (not_lt.mp h) (ih x x (List.mem_cons_self x ys))
        · exact ih x z (List.mem_cons_of_mem x hz3)

theorem groupBest_mem {g : List ProcProduct} {q : ProcProduct}
    (h : groupBest g = some q) : q ∈ g ∧ ∀ z ∈ g, scoreOf z ≤ scoreOf q := by
  cases g with
  | nil => exact absurd h (by simp [groupBest])
  | cons x xs =>
    rw [groupBest] at h
    obtain rfl := Option.some.inj h
    exact ⟨pyMaxBy_mem scoreOf x xs, pyMaxBy_le scoreOf x xs⟩

theorem filterMap_groupBest_keys (key : ℕ × ℕ × ℕ → ℕ × ℕ)
    (gs : List ((ℕ × ℕ) × List ProcProduct))
    (hne : ∀ e ∈ gs, e.2 ≠ [])
    (hkey : ∀ e ∈ gs, ∀ p ∈ e.2, weekKeyOf key p = some e.1) :
    ((gs.filterMap (fun e => groupBest e.2)).map (weekKeyOf key))
      = gs.map (fun e => some e.1) := by
  induction gs with
  | nil => rfl
  | cons e es ih =>
    cases hg : e.2 with
    | nil => exact absurd hg (hne e (List.mem_cons_self e es))
    | cons x xs =>
      rw [List.filterMap_cons, hg, groupBest, List.map_cons]
      rw [List.map_cons]
      congr 1
      · exact hkey e (List.mem_cons_self e es) _ (hg ▸ pyMaxBy_mem scoreOf x xs)
      · exact ih (fun e2 he2 => hne e2 (List.mem_cons_of_mem e he2))
          (fun e2 he2 => hkey e2 (List.mem_cons_of_mem e he2))

/-- Full characterization of `bestPerWeekBy` over any sorted input list and
any grouping key: the output is score-sorted, draws one product per occurring
key, and each drawn product has maximal score among the input products that
share its key. -/
theorem bestPerWeekBy_spec (key : ℕ × ℕ × ℕ → ℕ × ℕ) (l : List ProcProduct) :
    (bestPerWeekBy key l).Pairwise (fun a b => scoreOf b ≤ scoreOf a)
    ∧ (∀ q ∈ bestPerWeekBy key l, q ∈ l ∧ (weekKeyOf key q).isSome = true)
    ∧ ((bestPerWeekBy key l).map (weekKeyOf key)).Nodup
    ∧ (∀ p ∈ l, ∀ k, weekKeyOf key p = some k →
        ∃ q ∈ bestPerWeekBy key l, weekKeyOf key q = some k)
    ∧ (∀ q ∈ bestPerWeekBy key l, ∀ p ∈ l,
        weekKeyOf key p = weekKeyOf key q → scoreOf p ≤ scoreOf q) := by
  have hkeysnd : (((groupWeeksBy key l []).map Prod.fst)).Nodup :=
    nodup_keys_groupWeeksBy key l [] (by simp)
  have hcontent : ∀ e ∈ groupWeeksBy key l [],
      e.2 = l.filter (fun p => decide (weekKeyOf key p = some e.1)) := by
    intro e he
    have h1 : assocGet (groupWeeksBy key l []) e.1 = e.2 :=
      assocGet_of_mem _ e.1 e.2 hkeysnd he
    have h2 := assocGet_groupWeeksBy key l [] e.1
    rw [h1] at h2
    simpa using h2
  have hne : ∀ e ∈ groupWeeksBy key l [], e.2 ≠ [] :=
    groupWeeksBy_entry_ne_nil key l [] (by simp)
  have hkeyall : ∀ e ∈ groupWeeksBy key l [], ∀ p ∈ e.2,
      weekKeyOf key p = some e.1 := by
    intro e he p hp
    rw [hcontent e he] at hp
    have := (List.mem_filter.mp hp).2
    exact of_decide_eq_true this
  have hperm : (bestPerWeekBy key l).Perm
      ((groupWeeksBy key l []).filterMap (fun e => groupBest e.2)) :=
    sortByDesc_perm scoreOf _
  have hmem_bests : ∀ q, q ∈ (groupWeeksBy key l []).filterMap
      (fun e => groupBest e.2) →
      ∃ e ∈ groupWeeksBy key l [], groupBest e.2 = some q := by
    intro q hq
    obtain ⟨e, he, hgb⟩ := List.mem_filterMap.mp hq
    exact ⟨e, he, hgb⟩
  refine ⟨sortByDesc_pairwise scoreOf _, ?_, ?_, ?_, ?_⟩
  · intro q hq
    obtain ⟨e, he, hgb⟩ := hmem_bests q (hperm.mem_iff.mp hq)
    have hqg := (groupBest_mem hgb).1
    have hkq := hkeyall e he q hqg
    rw [hcontent e he] at hqg
    exact ⟨List.mem_of_mem_filter hqg, by rw [hkq]; rfl⟩
  · have hmap := filterMap_groupBest_keys key (groupWeeksBy key l []) hne hkeyall
    have hpm : ((bestPerWeekBy key l).map (weekKeyOf key)).Perm
        (((groupWeeksBy key l []).filterMap (fun e => groupBest e.2)).map
          (weekKeyOf key)) := hperm.map _
    rw [List.Perm.nodup_iff hpm, hmap]
    have : (groupWeeksBy key l []).map (fun e => some e.1)
        = ((groupWeeksBy key l []).map Prod.fst).map some := by
      rw [List.map_map]
      rfl
    rw [this]
    exact hkeysnd.map (Option.some_injective _)
  · intro p hp k hk
    have hfp : p ∈ l.filter (fun q => decide (weekKeyOf key q = some k)) :=
      List.mem_filter.mpr ⟨hp, decide_eq_true hk⟩
    have hne2 : assocGet (groupWeeksBy key l []) k ≠ [] := by
      have h2 := assocGet_groupWeeksBy key l [] k
      simp only [assocGet, List.nil_append] at h2
      rw [h2]
      exact List.ne_nil_of_mem hfp
    obtain ⟨g, hg⟩ := exists_mem_of_assocGet_ne_nil _ k hne2
    have hgcontent := hcontent (k, g) hg
    cases hgc : g with
    | nil => exact absurd (hgc ▸ hg) (fun hmem => hne (k, []) hmem rfl)
    | cons x xs =>
      refine ⟨pyMaxBy scoreOf x xs, hperm.mem_iff.mpr
        (List.mem_filterMap.mpr ⟨(k, g), hg, by rw [hgc]; rfl⟩), ?_⟩
      have hqin : pyMaxBy scoreOf x xs ∈ g := hgc ▸ pyMaxBy_mem scoreOf x xs
      exact hkeyall (k, g) hg _ hqin
  · intro q hq p hp hkpq
    obtain ⟨e, he, hgb⟩ := hmem_bests q (hperm.mem_iff.mp hq)
    have hkq := hkeyall e he q (groupBest_mem hgb).1
    have hpin : p ∈ e.2 := by
      rw [hcontent e he]
      exact List.mem_filter.mpr ⟨hp, decide_eq_true (hkpq.trans hkq)⟩
    exact (groupBest_mem hgb).2 p hpin

/-- C7 (amended): `auto_select_products` with strategy `best_per_week` groups
the scored products by the *code's* week key — the pair
`(sensing_date.year, ISO week number)`, i.e. the calendar year rather than
the ISO year of the claim — dropping products without a parseable
`sensing_date`; it returns exactly one product per occurring key, one of
maximal `quality_score` among all products sharing that key, and the result
is sorted by `quality_score` descending. -/
theorem best_per_week_strategy
    (coverageOptimizer : List ProcProduct → Except String CoverageResult)
    (optimizer_available aoi_inputs_present : Bool)
    (processed_products : List ProcProduct) (max_products : ℕ)
    (quality_threshold aoi_weight cloud_weight recency_weight : ℚ) :
    (auto_select_products coverageOptimizer optimizer_available aoi_inputs_present
        processed_products .best_per_week max_products quality_threshold
        aoi_weight cloud_weight recency_weight).Pairwise
      (fun a b => scoreOf b ≤ scoreOf a)
    ∧ (∀ q ∈ auto_select_products coverageOptimizer optimizer_available
          aoi_inputs_present processed_products .best_per_week max_products
          quality_threshold aoi_weight cloud_weight recency_weight,
        q ∈ scoreProducts processed_products aoi_weight cloud_weight recency_weight
        ∧ (weekKeyOf pythonWeekKey q).isSome = true)
    ∧ ((auto_select_products coverageOptimizer optimizer_available aoi_inputs_present
        processed_products .best_per_week max_products quality_threshold
        aoi_weight cloud_weight recency_weight).map (weekKeyOf pythonWeekKey)).Nodup
    ∧ (∀ p ∈ scoreProducts processed_products aoi_weight cloud_weight recency_weight,
        ∀ k, weekKeyOf pythonWeekKey p = some k →
        ∃ q ∈ auto_select_products coverageOptimizer optimizer_available
            aoi_inputs_present processed_products .best_per_week max_products
            quality_threshold aoi_weight cloud_weight recency_weight,
          weekKeyOf pythonWeekKey q = some k)
    ∧ (∀ q ∈ auto_select_products coverageOptimizer optimizer_available
          aoi_inputs_present processed_products .best_per_week max_products
          quality_threshold aoi_weight cloud_weight recency_weight,
        ∀ p ∈ scoreProducts processed_products aoi_weight cloud_weight recency_weight,
        weekKeyOf pythonWeekKey p = weekKeyOf pythonWeekKey q →
        scoreOf p ≤ scoreOf q) := by
  cases processed_products with
  | nil =>
    refine ⟨List.Pairwise.nil, ?_, List.Pairwise.nil, ?_, ?_⟩
    · intro q hq
      exact absurd hq (List.not_mem_nil q)
    · intro p hp
      exact absurd hp (List.not_mem_nil p)
    · intro q hq
      exact absurd hq (List.not_mem_nil q)
  | cons p0 ps =>
    have hmemiff : ∀ q : ProcProduct,
        q ∈ sortByDesc scoreOf
            (scoreProducts (p0 :: ps) aoi_weight cloud_weight recency_weight)
          ↔ q ∈ scoreProducts (p0 :: ps) aoi_weight cloud_weight recency_weight :=
      fun q => (sortByDesc_perm scoreOf _).mem_iff
    obtain ⟨h1, h2, h3, h4, h5⟩ := bestPerWeekBy_spec pythonWeekKey
      (sortByDesc scoreOf
        (scoreProducts (p0 :: ps) aoi_weight cloud_weight recency_weight))
    refine ⟨h1, ?_, h3, ?_, ?_⟩
    · intro q hq
      obtain ⟨hql, hks⟩ := h2 q hq
      exact ⟨(hmemiff q).mp hql, hks⟩
    · intro p hp k hk
      exact h4 p ((hmemiff p).mpr hp) k hk
    · intro q hq p hp hkk
      exact h5 q hq p ((hmemiff p).mpr hp) hkk

/-- Counterexample for C7 as stated: 2019-01-01 and 2019-12-30 lie in
*different* ISO year-weeks — `(2019, 1)` and `(2020, 1)` — so the claim
requires two returned products, but the code's `f"{year}-W{week:02d}"` key
uses the calendar year and maps both to `(2019, 1)`, returning only one. -/
theorem best_per_week_counterexample :
    (auto_select_products (fun _ => Except.error "unavailable") false false
        [prodWeekA, prodWeekB] .best_per_week 5 (7/10) (2/5) (2/5) (1/5)).length = 1
    ∧ (bestPerWeekSpec [prodWeekA, prodWeekB] (2/5) (2/5) (1/5)).length = 2
    ∧ isoPairKey (2019, 1, 1) ≠ isoPairKey (2019, 12, 30)
    ∧ pythonWeekKey (2019, 1, 1) = pythonWeekKey (2019, 12, 30) := by
  refine ⟨?_, ?_, ?_, ?_⟩ <;> with_unfolding_all decide

set_option maxRecDepth 4000 in
/-- Witness for C7 (amended): on the two-product instance, the completeness
conjunct applied to the first scored product yields a returned product with
the code's week key `(2019, 1)`. -/
theorem best_per_week_strategy_witness :
    ∃ q ∈ auto_select_products (fun _ => Except.error "unavailable") false false
        [prodWeekA, prodWeekB] .best_per_week 5 (7/10) (2/5) (2/5) (1/5),
      weekKeyOf pythonWeekKey q = some (2019, 1) :=
  (best_per_week_strategy (fun _ => Except.error "unavailable") false false
      [prodWeekA, prodWeekB] 5 (7/10) (2/5) (2/5) (1/5)).2.2.2.1
    (setScore prodWeekA 1) (by with_unfolding_all exact List.Mem.head _)
    (2019, 1) (by with_unfolding_all decide)

end SatShor
